import Mathlib

/-!
# Verification of the Sparky Live Session Engine

A shallow embedding of the Live Session Engine of the Sparky companion
robot client (`src/App.tsx`).  The source file contains two variants of
the application; definitions suffixed `A` embed the first variant
(lines 1–707) and definitions suffixed `B` embed the second variant
(lines 708–1473).

Modelling conventions:
* Clock values (`AudioContext.currentTime`) and audio durations are
  rationals standing in for the JavaScript doubles; the scheduling
  algorithms only use `max`, `+` and comparisons, which the rational
  embedding reproduces exactly.
* `Rat.sqrt` stands in for `Math.sqrt` in the RMS volume computation;
  no claim depends on the numeric value of a non-zero volume.
* Audio buffer source nodes are modelled as records carrying their
  scheduled start time, duration and a handle identifier; the
  `sourcesRef` set is a list of such records.
* React `useState`/`useRef` pairs are collapsed into one `EngineState`
  record; functional state updates in the source are applied
  immediately, matching the ref-mirrored reads the handlers perform.
* UI sound effects, canvas drawing, camera capture, timers and
  timestamps on log entries are outside the engine and not modelled.
-/

namespace Sparky

/-- The `RobotState` enum from `src/types.ts`. -/
inductive RState where
  | IDLE
  | CONNECTING
  | LISTENING
  | THINKING
  | SPEAKING
  | ERROR
deriving DecidableEq, Repr

/-- An in-flight `AudioBufferSourceNode`: scheduled start time, buffer
duration, and a handle identifier distinguishing the node. -/
structure Source where
  start : ℚ
  dur : ℚ
  sid : ℕ
deriving DecidableEq, Repr

/-- A `TranscriptionEntry` (`type` is `user`, `robot` or `system`); the
`Date.now()` timestamp is not modelled. -/
structure Entry where
  type : String
  text : String
deriving DecidableEq, Repr

/-- The `errorDetail` record: user-facing message and severity
(`critical := true` for type `'critical'`, `false` for `'warning'`). -/
structure ErrorDetail where
  message : String
  critical : Bool
deriving DecidableEq, Repr

/-- A detected face bounding box (variant B `report_faces`). -/
structure FaceBox where
  ymin : ℚ
  xmin : ℚ
  ymax : ℚ
  xmax : ℚ
deriving DecidableEq, Repr

/-- The engine state: the React state hooks and refs of the `App`
component that the Live Session Engine reads and writes.
`liveInput`/`liveOutput` are variant A's accumulators; variant B calls
them `currentInput`/`currentOutput` (same role).  `nextSid` is the
supply of fresh source handles. -/
structure EngineState where
  robotState : RState
  mood : String
  isActive : Bool
  isMuted : Bool
  isDeafened : Bool
  history : List Entry
  volume : ℚ
  liveInput : String
  liveOutput : String
  errorDetail : Option ErrorDetail
  nextStartTime : ℚ
  sources : List Source
  detectedFaces : List FaceBox
  nextSid : ℕ
deriving DecidableEq, Repr

/-- The state of the component before any session: all flags off,
everything empty. -/
def initState : EngineState :=
  ⟨.IDLE, "neutral", false, false, false, [], 0, "", "", none, 0, [], [], 0⟩

/-! ## Inbound server messages (the fields of `LiveServerMessage` the
handlers read) -/

/-- A transcription fragment (`inputTranscription` / `outputTranscription`). -/
structure Transcription where
  text : String
deriving DecidableEq, Repr

/-- The `args` object of a tool call; the handlers read `.mood`,
`.reason` and `.faces` (each face being its `box_2d` number list). -/
structure ToolArgs where
  mood : String
  reason : String
  faces : List (List ℚ)
deriving DecidableEq, Repr

/-- One element of `message.toolCall.functionCalls`. -/
structure FunctionCall where
  name : String
  id : String
  args : ToolArgs
deriving DecidableEq, Repr

/-- One element of `modelTurn.parts`; `inlineDataDur` is the duration of
the decoded audio buffer when the part carries `inlineData`. -/
structure Part where
  inlineDataDur : Option ℚ
deriving DecidableEq, Repr

/-- The `serverContent` field of a message. -/
structure ServerContent where
  outputTranscription : Option Transcription
  inputTranscription : Option Transcription
  turnComplete : Bool
  modelTurn : Option (List Part)
  interrupted : Bool
deriving DecidableEq, Repr

/-- A `LiveServerMessage` restricted to the fields the handlers read. -/
structure ServerMessage where
  serverContent : Option ServerContent
  toolCall : Option (List FunctionCall)
deriving DecidableEq, Repr

/-- Observable outbound effects of the handlers: a tool-response frame,
an encoded microphone chunk, or stopping an in-flight source node. -/
inductive Action where
  | toolResponse (id name result : String)
  | audioChunk (samples : List ℚ)
  | stopSource (sid : ℕ)
deriving DecidableEq, Repr

/-! ## Message constructors used in the statements -/

/-- A message carrying only an output transcription fragment. -/
def msgOutputT (t : String) : ServerMessage :=
  ⟨some ⟨some ⟨t⟩, none, false, none, false⟩, none⟩

/-- A message carrying only an input transcription fragment. -/
def msgInputT (t : String) : ServerMessage :=
  ⟨some ⟨none, some ⟨t⟩, false, none, false⟩, none⟩

/-- A message carrying only `turnComplete`. -/
def msgTurnComplete : ServerMessage :=
  ⟨some ⟨none, none, true, none, false⟩, none⟩

/-- A message carrying only `interrupted`. -/
def msgInterrupted : ServerMessage :=
  ⟨some ⟨none, none, false, none, true⟩, none⟩

/-- A message carrying only tool calls. -/
def msgToolCalls (fcs : List FunctionCall) : ServerMessage :=
  ⟨none, some fcs⟩

/-- A message carrying only audio fragments (one part per duration). -/
def msgAudio (durs : List ℚ) : ServerMessage :=
  ⟨some ⟨none, none, false, some (durs.map (fun d => ⟨some d⟩)), false⟩, none⟩

/-! ## Shared helpers -/

/-- JavaScript `haystack.includes(needle)`. -/
def strIncludes (hay pat : String) : Bool :=
  decide (pat.data <:+: hay.data)

/-- Variant A `addLog`: appends an entry unless the text is empty. -/
def addLog (s : EngineState) (ty text : String) : EngineState :=
  if text = "" then s
  else { s with history := s.history ++ [⟨ty, text⟩] }

/-- Sum of squares of a microphone frame
(the `for` loop `sum += inputData[i]*inputData[i]`). -/
def frameSumSq (frame : List ℚ) : ℚ :=
  frame.foldl (fun a v => a + v * v) 0

/-- The shared `source.onended` handler: remove the source from the
in-flight set; when the set becomes empty, return to `LISTENING` with
volume 0. -/
def completeSource (s : EngineState) (sid : ℕ) : EngineState :=
  let rest := s.sources.filter (fun src => src.sid ≠ sid)
  if rest = [] then
    { s with sources := rest, robotState := .LISTENING, volume := 0 }
  else
    { s with sources := rest }

/-! ## Variant A: the `onmessage` handler (App.tsx lines 440–485) -/

/-- Variant A audio scheduling for one `modelTurn` part carrying
`inlineData` (lines 459–474): set `SPEAKING`, start the source at
`max(nextStartTimeRef.current, currentTime)`, advance the cursor by the
buffer duration, and add the source to the in-flight set. -/
def scheduleAudioA (s : EngineState) (now dur : ℚ) : EngineState :=
  let startTime := max s.nextStartTime now
  { s with robotState := .SPEAKING,
           nextStartTime := startTime + dur,
           sources := s.sources ++ [⟨startTime, dur, s.nextSid⟩],
           nextSid := s.nextSid + 1 }

/-- Variant A `modelTurn` section: iterate over the parts, scheduling
each part that carries `inlineData`. -/
def modelTurnA (s : EngineState) (now : ℚ) (parts : List Part) : EngineState :=
  parts.foldl
    (fun st p =>
      match p.inlineDataDur with
      | some dur => scheduleAudioA st now dur
      | none => st) s

/-- Variant A transcription accumulation (lines 443–444):
`outputTranscription` appends to `liveOutput`, `else if`
`inputTranscription` appends to `liveInput`. -/
def transcriptsA (s : EngineState) (sc : ServerContent) : EngineState :=
  match sc.outputTranscription with
  | some t => { s with liveOutput := s.liveOutput ++ t.text }
  | none =>
    match sc.inputTranscription with
    | some t => { s with liveInput := s.liveInput ++ t.text }
    | none => s

/-- Variant A `turnComplete` flush (lines 445–448): log the input
accumulator if non-empty and clear it, then the same for the output
accumulator. -/
def turnCompleteA (s : EngineState) : EngineState :=
  let s1 := { addLog s "user" s.liveInput with liveInput := "" }
  { addLog s1 "robot" s1.liveOutput with liveOutput := "" }

/-- Variant A tool-call section (lines 449–456): only the
`update_spark_mood` function is handled — it updates the mood and sends
one tool response; any other name is ignored and receives no response. -/
def toolCallA (s : EngineState) (acts : List Action) (fcs : List FunctionCall) :
    EngineState × List Action :=
  fcs.foldl
    (fun p fc =>
      if fc.name = "update_spark_mood" then
        ({ p.1 with mood := fc.args.mood },
          p.2 ++ [.toolResponse fc.id fc.name "Mood synced."])
      else p)
    (s, acts)

/-- Variant A `interrupted` section (lines 477–484): stop every
in-flight source, clear the set, reset the cursor to zero, return to
`LISTENING`, zero the volume and clear the output accumulator. -/
def interruptedA (s : EngineState) : EngineState × List Action :=
  ({ s with sources := [], nextStartTime := 0, robotState := .LISTENING,
            volume := 0, liveOutput := "" },
    s.sources.map (fun src => .stopSource src.sid))

/-- Variant A `onmessage` (lines 440–485): a deafened engine discards
the message wholesale; otherwise the sections run in source order:
transcriptions, turn-complete flush, tool calls, model-turn audio,
interruption. -/
def handleMessageA (s : EngineState) (now : ℚ) (m : ServerMessage) :
    EngineState × List Action :=
  if s.isDeafened then (s, [])
  else
    let s1 := match m.serverContent with
      | some sc => transcriptsA s sc
      | none => s
    let s2 := match m.serverContent with
      | some sc => if sc.turnComplete then turnCompleteA s1 else s1
      | none => s1
    let p3 := match m.toolCall with
      | some fcs => toolCallA s2 [] fcs
      | none => (s2, [])
    let s4 := match m.serverContent with
      | some sc =>
        match sc.modelTurn with
        | some parts => modelTurnA p3.1 now parts
        | none => p3.1
      | none => p3.1
    match m.serverContent with
    | some sc =>
      if sc.interrupted then
        let p5 := interruptedA s4
        (p5.1, p3.2 ++ p5.2)
      else (s4, p3.2)
    | none => (s4, p3.2)

/-! ## Variant A: microphone processing, deafen effect, teardown, errors -/

/-- Result of one `scriptProcessor.onaudioprocess` call (variant A,
lines 422–436): the updated state, the encoded chunk sent to the session
channel (if any), and whether the RMS summation loop ran. -/
structure MicResult where
  state : EngineState
  sent : Option (List ℚ)
  rmsComputed : Bool
deriving DecidableEq, Repr

/-- Variant A `onaudioprocess`: return immediately when `IDLE`; when not
muted, compute the RMS (reporting it as volume only in `LISTENING`) and
send the encoded frame; when muted, report volume 0 and send nothing —
the RMS loop does not run. -/
def onAudioProcessA (s : EngineState) (frame : List ℚ) : MicResult :=
  if s.robotState = .IDLE then ⟨s, none, false⟩
  else if s.isMuted = false then
    let s1 :=
      if s.robotState = .LISTENING then
        { s with volume := Rat.sqrt (frameSumSq frame / (frame.length : ℚ)) * (5 / 2) }
      else s
    ⟨s1, some (frame.map (fun v => v * 32768)), true⟩
  else ⟨{ s with volume := 0 }, none, false⟩

/-- Variant A `useEffect [isDeafened]` with the flag turning on
(lines 96–106): stop every in-flight source, clear the set, force
`LISTENING`, zero the volume.  The cursor is left untouched. -/
def deafenOnA (s : EngineState) : EngineState × List Action :=
  ({ s with isDeafened := true, sources := [], robotState := .LISTENING,
            volume := 0 },
    s.sources.map (fun src => .stopSource src.sid))

/-- Variant A `stopSession` (lines 337–362): stop all sources, clear
everything, reset the cursor, and return to `IDLE`. -/
def stopSessionA (s : EngineState) : EngineState × List Action :=
  ({ s with sources := [], nextStartTime := 0, isActive := false,
            robotState := .IDLE, mood := "neutral", volume := 0,
            liveInput := "", liveOutput := "",
            history := s.history ++ [⟨"system", "NEURAL LINK DEACTIVATED."⟩] },
    s.sources.map (fun src => .stopSource src.sid))

/-- Variant A `handleError` classification (lines 119–134): the chain of
message/name tests producing the user-facing message and severity. -/
def classifyErrorA (name msg : String) : ErrorDetail :=
  if strIncludes msg "Operation is not implemented" || strIncludes msg "not supported" then
    ⟨"Certain neural features are limited. Restricted vision tools detected.", false⟩
  else if name = "NotAllowedError" then
    ⟨"Hardware access denied.", true⟩
  else if strIncludes msg "API_KEY" then
    ⟨"Configuration error: Invalid Key.", true⟩
  else
    ⟨"An unexpected error occurred.", false⟩

/-- Variant A `handleError` (lines 119–143): record the error detail,
log it, and — only for critical errors — tear the session down and enter
`ERROR`. -/
def handleErrorA (s : EngineState) (name msg : String) : EngineState :=
  let ed := classifyErrorA name msg
  let s1 := addLog { s with errorDetail := some ed } "system" ("ERROR: " ++ ed.message)
  if ed.critical then { (stopSessionA s1).1 with robotState := .ERROR }
  else s1

/-- Variant A `onclose` (lines 487–490): a non-normal code while the
session is active goes to `handleError`; otherwise return to `IDLE`. -/
def oncloseA (s : EngineState) (code : ℕ) : EngineState :=
  if code ≠ 1000 ∧ s.isActive = true then
    handleErrorA s "Error" ("Link severed: " ++ toString code)
  else
    { s with robotState := .IDLE, isActive := false }

/-- State fields written on entry to `startSession` (both variants):
`CONNECTING`, error cleared, active, playback cursor reset. -/
def connectEntry (s : EngineState) : EngineState :=
  { s with robotState := .CONNECTING, errorDetail := none,
           isActive := true, nextStartTime := 0 }

/-- Outcome of one failed `ai.live.connect` attempt: either a retry is
scheduled after a delay (milliseconds), or the engine gives up with the
resulting state. -/
inductive RetryStep where
  | retryAfter (delay : ℚ)
  | done (s : EngineState)
deriving DecidableEq, Repr

/-- Variant A retry decision on `startSession` failure (line 495): a
fixed 2000 ms delay while `retryCount < 2`, then `handleError`. -/
def startFailureA (s : EngineState) (retryCount : ℕ) (name msg : String) : RetryStep :=
  if retryCount < 2 then .retryAfter 2000
  else .done (handleErrorA s name msg)

/-- Drives variant A `startSession` through consecutive failures all
raising the same error, starting at the given retry count, collecting
the scheduled delays (fuel bounds the recursion; it never runs out for
fuel above the retry bound). -/
def driveA (name msg : String) : ℕ → ℕ → EngineState → EngineState × List ℚ
  | 0, _, s => (s, [])
  | fuel + 1, c, s =>
    let s1 := connectEntry s
    match startFailureA s1 c name msg with
    | .retryAfter d =>
      let r := driveA name msg fuel (c + 1) s1
      (r.1, d :: r.2)
    | .done sf => (sf, [])

/-! ## Variant B: the `onmessage` handler (App.tsx lines 1083–1185) -/

/-- Variant B audio scheduling for one part with `inlineData`
(lines 1123–1158): re-anchor the cursor to `currentTime` when the
in-flight set is empty or the cursor lags the clock, start the source at
the cursor, advance the cursor by the duration, add the source, set
`SPEAKING`. -/
def scheduleAudioB (s : EngineState) (now dur : ℚ) : EngineState :=
  let next1 :=
    if s.sources = [] then now
    else if s.nextStartTime < now then now
    else s.nextStartTime
  { s with robotState := .SPEAKING,
           nextStartTime := next1 + dur,
           sources := s.sources ++ [⟨next1, dur, s.nextSid⟩],
           nextSid := s.nextSid + 1 }

/-- Variant B `modelTurn` section: iterate over the parts, scheduling
each part that carries `inlineData`. -/
def modelTurnB (s : EngineState) (now : ℚ) (parts : List Part) : EngineState :=
  parts.foldl
    (fun st p =>
      match p.inlineDataDur with
      | some dur => scheduleAudioB st now dur
      | none => st) s

/-- The log entry variant B appends when `report_faces` fires. -/
def facesLogText (n : ℕ) : String :=
  "VISUAL LINK: DETECTED " ++ toString n ++ " HUMAN ENTIT" ++
    (if 1 < n then "IES" else "Y") ++ " IN FRAME."

/-- A `box_2d` coordinate list read into a `FaceBox`
(`[ymin, xmin, ymax, xmax]`). -/
def faceBoxOf (l : List ℚ) : FaceBox :=
  ⟨l.getD 0 0, l.getD 1 0, l.getD 2 0, l.getD 3 0⟩

/-- Variant B tool-call section (lines 1084–1118): `update_sparky_mood`
updates the mood and acknowledges; `report_faces` records the boxes,
forces mood `curious`, logs a system entry and acknowledges; any other
name is ignored and receives no response.  (The gesture/face display
timers are UI-side and not modelled.) -/
def toolCallB (s : EngineState) (acts : List Action) (fcs : List FunctionCall) :
    EngineState × List Action :=
  fcs.foldl
    (fun p fc =>
      let p1 :=
        if fc.name = "update_sparky_mood" then
          ({ p.1 with mood := fc.args.mood },
            p.2 ++ [.toolResponse fc.id fc.name "Mood updated"])
        else p
      if fc.name = "report_faces" then
        ({ p1.1 with detectedFaces := fc.args.faces.map faceBoxOf,
                     mood := "curious",
                     history := p1.1.history ++
                       [⟨"system", facesLogText fc.args.faces.length⟩] },
          p1.2 ++ [.toolResponse fc.id fc.name
            ("Tracking " ++ toString fc.args.faces.length ++ " faces.")])
      else p1)
    (s, acts)

/-- Variant B `interrupted` section (lines 1166–1172): stop every
in-flight source, clear the set, reset the cursor to zero, return to
`LISTENING`, zero the volume. -/
def interruptedB (s : EngineState) : EngineState × List Action :=
  ({ s with sources := [], nextStartTime := 0, robotState := .LISTENING,
            volume := 0 },
    s.sources.map (fun src => .stopSource src.sid))

/-- Variant B transcription accumulation (lines 1174–1175): separate
`if`s, input first, then output. -/
def transcriptsB (s : EngineState) (sc : ServerContent) : EngineState :=
  let s1 := match sc.inputTranscription with
    | some t => { s with liveInput := s.liveInput ++ t.text }
    | none => s
  match sc.outputTranscription with
  | some t => { s1 with liveOutput := s1.liveOutput ++ t.text }
  | none => s1

/-- Variant B `turnComplete` flush (lines 1176–1184): append one entry
per non-empty accumulator (user first) in a single history update, then
clear both accumulators. -/
def turnCompleteB (s : EngineState) : EngineState :=
  let entries :=
    (if s.liveInput ≠ "" then [(⟨"user", s.liveInput⟩ : Entry)] else []) ++
    (if s.liveOutput ≠ "" then [(⟨"robot", s.liveOutput⟩ : Entry)] else [])
  let s1 :=
    if s.liveInput ≠ "" ∨ s.liveOutput ≠ "" then
      { s with history := s.history ++ entries }
    else s
  { s1 with liveInput := "", liveOutput := "" }

/-- Variant B `onmessage` (lines 1083–1185), sections in source order:
tool calls, model-turn audio, interruption, transcriptions,
turn-complete flush.  Variant B has no deafen flag. -/
def handleMessageB (s : EngineState) (now : ℚ) (m : ServerMessage) :
    EngineState × List Action :=
  let p1 := match m.toolCall with
    | some fcs => toolCallB s [] fcs
    | none => (s, [])
  let s2 := match m.serverContent with
    | some sc =>
      match sc.modelTurn with
      | some parts => modelTurnB p1.1 now parts
      | none => p1.1
    | none => p1.1
  let p3 := match m.serverContent with
    | some sc =>
      if sc.interrupted then
        let p := interruptedB s2
        (p.1, p1.2 ++ p.2)
      else (s2, p1.2)
    | none => (s2, p1.2)
  let s4 := match m.serverContent with
    | some sc => transcriptsB p3.1 sc
    | none => p3.1
  let s5 := match m.serverContent with
    | some sc => if sc.turnComplete then turnCompleteB s4 else s4
    | none => s4
  (s5, p3.2)

/-! ## Variant B: microphone, teardown, close, retry -/

/-- Variant B `onaudioprocess` (lines 1059–1079): no mute flag — every
frame (outside `IDLE`) is sent; RMS is reported as volume only in
`LISTENING`. -/
def onAudioProcessB (s : EngineState) (frame : List ℚ) : EngineState × Option (List ℚ) :=
  if s.robotState = .IDLE then (s, none)
  else
    let s1 :=
      if s.robotState = .LISTENING then
        { s with volume := Rat.sqrt (frameSumSq frame / (frame.length : ℚ)) * (5 / 2) }
      else s
    (s1, some (frame.map (fun v => v * 32768)))

/-- Variant B `stopSession` (lines 923–957). -/
def stopSessionB (s : EngineState) : EngineState × List Action :=
  ({ s with sources := [], nextStartTime := 0, isActive := false,
            robotState := .IDLE, mood := "neutral", volume := 0,
            liveInput := "", liveOutput := "", detectedFaces := [] },
    s.sources.map (fun src => .stopSource src.sid))

/-- Variant B `onclose` (lines 1194–1203).  The handler reads the
`isActive` binding captured by the `startSession` closure, which need
not equal the live flag; it is therefore passed explicitly. -/
def oncloseB (s : EngineState) (code : ℕ) (capturedIsActive : Bool) : EngineState :=
  if code ≠ 1000 ∧ capturedIsActive = true then
    { s with robotState := .ERROR,
             errorDetail := some ⟨"Activation aborted (Code: " ++ toString code ++
               "). This often means the API key is missing or the project billing is inactive.", true⟩ }
  else
    { s with robotState := .IDLE, isActive := false }

/-- Variant B retry decision on `startSession` failure
(lines 1209–1222): while `retryCount < MAX_RETRIES = 3`, retry after
`2^retryCount * 1000` ms plus the jitter drawn from `Math.random()*500`;
on exhaustion enter `ERROR` with a critical user-facing message. -/
def startFailureB (s : EngineState) (retryCount : ℕ) (jitter : ℚ) (errMsg : String) :
    RetryStep :=
  if retryCount < 3 then .retryAfter (2 ^ retryCount * 1000 + jitter)
  else .done
    { s with robotState := .ERROR,
             errorDetail := some ⟨"Neural handshake failed: " ++ errMsg ++
               ". Check environment variables for API_KEY.", true⟩ }

/-- Drives variant B `startSession` through consecutive failures with
the given per-attempt jitters, collecting the scheduled delays. -/
def driveB (errMsg : String) (jitters : List ℚ) :
    ℕ → ℕ → EngineState → EngineState × List ℚ
  | 0, _, s => (s, [])
  | fuel + 1, c, s =>
    let s1 := connectEntry s
    match startFailureB s1 c (jitters.getD c 0) errMsg with
    | .retryAfter d =>
      let r := driveB errMsg jitters fuel (c + 1) s1
      (r.1, d :: r.2)
    | .done sf => (sf, [])

/-! ## Sequencing helpers used by the claim statements -/

/-- Enqueue a sequence of fragments through variant A's scheduler; each
list element is `(clock at enqueue, duration)`. -/
def enqueueAllA (s : EngineState) (l : List (ℚ × ℚ)) : EngineState :=
  l.foldl (fun st p => scheduleAudioA st p.1 p.2) s

/-- Enqueue a sequence of fragments through variant B's scheduler. -/
def enqueueAllB (s : EngineState) (l : List (ℚ × ℚ)) : EngineState :=
  l.foldl (fun st p => scheduleAudioB st p.1 p.2) s

/-- Process a list of `(clock, message)` pairs through variant A's
`onmessage`, concatenating the emitted actions. -/
def runMsgsA (s : EngineState) : List (ℚ × ServerMessage) → EngineState × List Action
  | [] => (s, [])
  | (now, m) :: rest =>
    let p1 := handleMessageA s now m
    let p2 := runMsgsA p1.1 rest
    (p2.1, p1.2 ++ p2.2)

/-- Process a list of `(clock, message)` pairs through variant B's
`onmessage`. -/
def runMsgsB (s : EngineState) : List (ℚ × ServerMessage) → EngineState × List Action
  | [] => (s, [])
  | (now, m) :: rest =>
    let p1 := handleMessageB s now m
    let p2 := runMsgsB p1.1 rest
    (p2.1, p1.2 ++ p2.2)

/-- Number of tool-response frames in an action list referencing the
given call id. -/
def countRespFor (acts : List Action) (i : String) : ℕ :=
  (acts.filter
    (fun a => match a with
      | .toolResponse id _ _ => id == i
      | _ => false)).length

/-! ## Spec-side schedule (claim C1)

`specSchedule` follows the claim's recurrence
`start[i] = max(start[i-1] + d[i-1], now_at_enqueue[i])` literally
(with the accumulator seeded by the playback cursor): it is the
specification the code's fold is compared against. -/

/-- The `(start, duration)` pairs generated by the claim's recurrence, given
the initial cursor value. -/
def specSchedule (next0 : ℚ) : List (ℚ × ℚ) → List (ℚ × ℚ)
  | [] => []
  | (now, dur) :: rest =>
    (max next0 now, dur) :: specSchedule (max next0 now + dur) rest

/-- The cursor value after the claim's recurrence has consumed the whole
list (the end of the last scheduled fragment). -/
def specNext (next0 : ℚ) : List (ℚ × ℚ) → ℚ
  | [] => next0
  | (now, dur) :: rest => specNext (max next0 now + dur) rest

/-- The in-flight records created for a spec schedule, with handles
drawn from `sid0`. -/
def specSources (sid0 : ℕ) : List (ℚ × ℚ) → List Source
  | [] => []
  | (start, dur) :: rest => ⟨start, dur, sid0⟩ :: specSources (sid0 + 1) rest

/-- Every fragment after the first arrives no later than the end of the
fragment scheduled before it ("fragments arrive faster than real
time"), the ends being accumulated from `e`. -/
def arrivesBeforeEnd (e : ℚ) : List (ℚ × ℚ) → Prop
  | [] => True
  | (now, dur) :: rest => now ≤ e ∧ arrivesBeforeEnd (e + dur) rest

/-- The fast-arrival hypothesis of claim C1 for a whole enqueue list:
no constraint on the first fragment, every later fragment arriving
before the previous one ends. -/
def fastArrival (next0 : ℚ) : List (ℚ × ℚ) → Prop
  | [] => True
  | (now, dur) :: rest => arrivesBeforeEnd (max next0 now + dur) rest

/-! ## Event-level step functions (claim C8)

Each cooperative-scheduler callback of the engine is one event; the
step functions thread the ambient output clock (`currentTime`) next to
the state, requiring it to be non-decreasing, and requiring a source's
natural completion not to fire before its scheduled end. -/

/-- All `inlineData` durations in a message are non-negative (decoded
buffers cannot have negative duration). -/
def msgDursNonneg (m : ServerMessage) : Bool :=
  match m.serverContent with
  | some sc =>
    match sc.modelTurn with
    | some parts =>
      parts.all (fun p =>
        match p.inlineDataDur with
        | some d => decide (0 ≤ d)
        | none => true)
    | none => true
  | none => true

/-- Events processed by variant A's cooperative scheduler. -/
inductive EventA where
  | msg (now : ℚ) (m : ServerMessage)
  | mic (frame : List ℚ)
  | complete (now : ℚ) (sid : ℕ)
  | close (code : ℕ)
  | stop
  | deafen (b : Bool)
  | mute (b : Bool)
deriving DecidableEq, Repr

/-- Events processed by variant B's cooperative scheduler. -/
inductive EventB where
  | msg (now : ℚ) (m : ServerMessage)
  | mic (frame : List ℚ)
  | complete (now : ℚ) (sid : ℕ)
  | close (code : ℕ) (capturedIsActive : Bool)
  | stop
deriving DecidableEq, Repr

/-- One step of variant A: `none` when the event is inadmissible
(clock running backwards, a negative decoded duration, or a completion
of an absent source or before its scheduled end). -/
def stepA (p : EngineState × ℚ) (e : EventA) : Option (EngineState × ℚ) :=
  match e with
  | .msg now m =>
    if p.2 ≤ now ∧ msgDursNonneg m = true then
      some ((handleMessageA p.1 now m).1, now)
    else none
  | .mic frame => some ((onAudioProcessA p.1 frame).state, p.2)
  | .complete now sid =>
    match p.1.sources.find? (fun src => src.sid == sid) with
    | some src =>
      if p.2 ≤ now ∧ src.start + src.dur ≤ now then
        some (completeSource p.1 sid, now)
      else none
    | none => none
  | .close code => some (oncloseA p.1 code, p.2)
  | .stop => some ((stopSessionA p.1).1, p.2)
  | .deafen b =>
    if b then some ((deafenOnA p.1).1, p.2)
    else some ({ p.1 with isDeafened := false }, p.2)
  | .mute b => some ({ p.1 with isMuted := b }, p.2)

/-- One step of variant B. -/
def stepB (p : EngineState × ℚ) (e : EventB) : Option (EngineState × ℚ) :=
  match e with
  | .msg now m =>
    if p.2 ≤ now ∧ msgDursNonneg m = true then
      some ((handleMessageB p.1 now m).1, now)
    else none
  | .mic frame => some ((onAudioProcessB p.1 frame).1, p.2)
  | .complete now sid =>
    match p.1.sources.find? (fun src => src.sid == sid) with
    | some src =>
      if p.2 ≤ now ∧ src.start + src.dur ≤ now then
        some (completeSource p.1 sid, now)
      else none
    | none => none
  | .close code cap => some (oncloseB p.1 code cap, p.2)
  | .stop => some ((stopSessionB p.1).1, p.2)

/-- Run variant B from a state through a list of events. -/
def runB (p : EngineState × ℚ) : List EventB → Option (EngineState × ℚ)
  | [] => some p
  | e :: es =>
    match stepB p e with
    | some p1 => runB p1 es
    | none => none

/-- The session state right after a successful `startSession` in
variant B (`connectEntry` then `onopen` sets `LISTENING`), paired with
the output clock at that moment. -/
def sessionStartB (c0 : ℚ) : EngineState × ℚ :=
  ({ connectEntry initState with robotState := .LISTENING }, c0)

/-- Variant A events that the claims allow to reset the playback
cursor: an interruption message, an explicit teardown, and a non-normal
close that `handleError` classifies as critical (which tears the
session down). -/
def isResetA (s : EngineState) (e : EventA) : Bool :=
  match e with
  | .msg _ m =>
    match m.serverContent with
    | some sc => sc.interrupted
    | none => false
  | .stop => true
  | .close code =>
    decide (code ≠ 1000) && s.isActive &&
      (classifyErrorA "Error" ("Link severed: " ++ toString code)).critical
  | _ => false

/-- Variant B events that the claims allow to reset the playback
cursor. -/
def isResetB (e : EventB) : Bool :=
  match e with
  | .msg _ m =>
    match m.serverContent with
    | some sc => sc.interrupted
    | none => false
  | .stop => true
  | _ => false

/-- Source-handle bookkeeping invariant: in-flight handles are all
below the supply counter and pairwise distinct. -/
def SidOk (s : EngineState) : Prop :=
  (∀ src ∈ s.sources, src.sid < s.nextSid) ∧
    (s.sources.map (fun src => src.sid)).Nodup

/-- The cursor either lies at or before the given clock value, or is
the scheduled end of some in-flight source. -/
def SchedOk (s : EngineState) (now : ℚ) : Prop :=
  s.nextStartTime ≤ now ∨
    ∃ src ∈ s.sources, src.start + src.dur = s.nextStartTime

/-- The reachability invariant of variant B's scheduler. -/
def InvB (p : EngineState × ℚ) : Prop :=
  0 ≤ p.2 ∧ SidOk p.1 ∧ SchedOk p.1 p.2

/-! ## Concrete states used by the closed statements -/

/-- A freshly connected, listening session. -/
def listenState : EngineState :=
  { connectEntry initState with robotState := .LISTENING }

/-- A listening session with the deafen flag set. -/
def deafState : EngineState :=
  { listenState with isDeafened := true }

/-- A speaking session with two fragments in flight. -/
def speakState : EngineState :=
  { listenState with robotState := .SPEAKING, nextStartTime := 7,
                     sources := [⟨0, 3, 0⟩, ⟨3, 4, 1⟩], nextSid := 2 }

/-- A message exercising every section of the handler at once. -/
def richMsg : ServerMessage :=
  ⟨some ⟨some ⟨" there"⟩, some ⟨"hi"⟩, true, some [⟨some 2⟩, ⟨none⟩], true⟩,
    some [⟨"update_spark_mood", "id1", ⟨"happy", "saw you", []⟩⟩]⟩

/-- Tool calls exercising both recognised and unrecognised names. -/
def demoCalls : List FunctionCall :=
  [⟨"update_spark_mood", "a", ⟨"happy", "r", []⟩⟩,
   ⟨"update_sparky_mood", "b", ⟨"calm", "r", []⟩⟩,
   ⟨"report_faces", "c", ⟨"", "", [[1, 2, 3, 4]]⟩⟩]

/-- The model-turn stage of variant B's `onmessage`, factored out for
the invariant proofs (identical to the corresponding match inside
`handleMessageB`). -/
def msgModelB (base : EngineState) (now : ℚ) (sc : ServerContent) : EngineState :=
  match sc.modelTurn with
  | some parts => modelTurnB base now parts
  | none => base

/-- The state component of variant B's `onmessage` after the tool-call
stage, factored out for the invariant proofs. -/
def msgTailB (base : EngineState) (now : ℚ) (sc : ServerContent) : EngineState :=
  let s2 := msgModelB base now sc
  let s3 := if sc.interrupted then (interruptedB s2).1 else s2
  let s4 := transcriptsB s3 sc
  if sc.turnComplete then turnCompleteB s4 else s4

/-- The state component of variant A's `onmessage` when the deafen
guard passes and `serverContent` is present, factored out for the
invariant proofs. -/
def msgTailA (s : EngineState) (now : ℚ) (sc : ServerContent)
    (otc : Option (List FunctionCall)) : EngineState :=
  let s1 := transcriptsA s sc
  let s2 := if sc.turnComplete then turnCompleteA s1 else s1
  let s3 := (match otc with
    | some fcs => toolCallA s2 [] fcs
    | none => (s2, ([] : List Action))).1
  let s4 := match sc.modelTurn with
    | some parts => modelTurnA s3 now parts
    | none => s3
  if sc.interrupted then (interruptedA s4).1 else s4

/-! ## Helper lemmas -/

theorem handleMessageA_deafened {s : EngineState} (h : s.isDeafened = true)
    (now : ℚ) (m : ServerMessage) : handleMessageA s now m = (s, []) := by
  simp [handleMessageA, h]

theorem runMsgsA_deafened {s : EngineState} (h : s.isDeafened = true) :
    ∀ msgs : List (ℚ × ServerMessage), runMsgsA s msgs = (s, []) := by
  intro msgs
  induction msgs with
  | nil => rfl
  | cons hd tl ih =>
    obtain ⟨now, m⟩ := hd
    simp [runMsgsA, handleMessageA_deafened h, ih]

theorem transcriptsB_fields (s : EngineState) (sc : ServerContent) :
    (transcriptsB s sc).sources = s.sources ∧
    (transcriptsB s sc).nextStartTime = s.nextStartTime ∧
    (transcriptsB s sc).robotState = s.robotState ∧
    (transcriptsB s sc).volume = s.volume := by
  cases h1 : sc.inputTranscription <;> cases h2 : sc.outputTranscription <;>
    simp [transcriptsB, h1, h2]

theorem turnCompleteB_fields (s : EngineState) :
    (turnCompleteB s).sources = s.sources ∧
    (turnCompleteB s).nextStartTime = s.nextStartTime ∧
    (turnCompleteB s).robotState = s.robotState ∧
    (turnCompleteB s).volume = s.volume := by
  simp only [turnCompleteB]
  split <;> simp

/-! ## Claim theorems -/

/-- C10: while the deafened flag is set, variant A's `onmessage`
discards every server message in its entirety: the returned state is
unchanged (transcript accumulators, history log, mood, in-flight set
and playback cursor included) and no outbound frame — in particular no
tool response — is produced. -/
theorem c10_deafened_discards_everything (s : EngineState) (now : ℚ)
    (m : ServerMessage) (h : s.isDeafened = true) :
    handleMessageA s now m = (s, []) :=
  handleMessageA_deafened h now m

theorem c10_witness :
    deafState.isDeafened = true ∧ handleMessageA deafState 5 richMsg = (deafState, []) :=
  ⟨rfl, c10_deafened_discards_everything deafState 5 richMsg rfl⟩

/-- C9: turning the deafen flag on stops every in-flight fragment,
empties the in-flight set, forces `LISTENING` and volume 0; and every
inbound message processed from then on (while the flag stays set)
leaves the state unchanged and schedules nothing, so no audio renders
while deafened. -/
theorem c9_deafen_stops_playback (s : EngineState)
    (msgs : List (ℚ × ServerMessage)) :
    (deafenOnA s).1.sources = [] ∧
    (deafenOnA s).1.robotState = .LISTENING ∧
    (deafenOnA s).1.volume = 0 ∧
    (deafenOnA s).2 = s.sources.map (fun src => .stopSource src.sid) ∧
    runMsgsA (deafenOnA s).1 msgs = ((deafenOnA s).1, []) :=
  ⟨rfl, rfl, rfl, rfl, runMsgsA_deafened rfl msgs⟩

/-- C3: an `Interrupted` event stops every in-flight fragment, clears
the in-flight set, resets the cursor to zero and forces `LISTENING`
(with volume 0), in the same processing step — stated exactly for a
pure interruption message and, for the scheduler fields, for any
message carrying the interrupted flag, in both variants. -/
theorem c3_interrupted_clears_playback (s : EngineState) (now : ℚ)
    (m : ServerMessage) (sc : ServerContent) (hd : s.isDeafened = false)
    (hm : m.serverContent = some sc) (hi : sc.interrupted = true) :
    (handleMessageA s now msgInterrupted =
      ({ s with sources := [], nextStartTime := 0, robotState := .LISTENING,
                volume := 0, liveOutput := "" },
        s.sources.map (fun src => .stopSource src.sid))) ∧
    (handleMessageB s now msgInterrupted =
      ({ s with sources := [], nextStartTime := 0, robotState := .LISTENING,
                volume := 0 },
        s.sources.map (fun src => .stopSource src.sid))) ∧
    (handleMessageA s now m).1.sources = [] ∧
    (handleMessageA s now m).1.nextStartTime = 0 ∧
    (handleMessageA s now m).1.robotState = .LISTENING ∧
    (handleMessageA s now m).1.volume = 0 ∧
    (handleMessageB s now m).1.sources = [] ∧
    (handleMessageB s now m).1.nextStartTime = 0 ∧
    (handleMessageB s now m).1.robotState = .LISTENING ∧
    (handleMessageB s now m).1.volume = 0 := by
  refine ⟨?_, ?_, ?_, ?_, ?_, ?_, ?_, ?_, ?_, ?_⟩
  · simp [handleMessageA, msgInterrupted, transcriptsA, interruptedA, hd]
  · simp [handleMessageB, msgInterrupted, transcriptsB, turnCompleteB, interruptedB]
  all_goals
    obtain ⟨h1, h2, h3, h4⟩ :=
      turnCompleteB_fields (transcriptsB (interruptedB ((handleMessageB s now m).1)).1 sc)
  all_goals
    cases htc : m.toolCall <;>
      first
        | (simp [handleMessageA, hd, hm, hi, htc, interruptedA])
        | (cases hmt : sc.modelTurn <;> cases htk : sc.turnComplete <;>
            simp [handleMessageB, hm, hi, htc, hmt, htk, interruptedB,
              (transcriptsB_fields _ sc).1, (transcriptsB_fields _ sc).2.1,
              (transcriptsB_fields _ sc).2.2.1, (transcriptsB_fields _ sc).2.2.2,
              (turnCompleteB_fields _).1, (turnCompleteB_fields _).2.1,
              (turnCompleteB_fields _).2.2.1, (turnCompleteB_fields _).2.2.2])

theorem c3_witness :
    handleMessageA speakState 5 msgInterrupted =
      ({ speakState with sources := [], nextStartTime := 0,
                         robotState := .LISTENING, volume := 0, liveOutput := "" },
        [.stopSource 0, .stopSource 1]) := by
  have h := (c3_interrupted_clears_playback speakState 5 msgInterrupted
    ⟨none, none, false, none, true⟩ rfl rfl rfl).1
  simpa using h

/-- C7: partial transcripts accumulate by string concatenation until
`TurnComplete`, which appends exactly one log entry per non-empty
accumulated side (user before robot) and resets both accumulators —
in both variants — and the claim's example scenario: `"Hello"` then
`" there"` then `TurnComplete` yields exactly the one robot entry
`"Hello there"` with empty accumulators. -/
theorem c7_transcript_accumulation (s : EngineState) (now : ℚ) (t : String)
    (hd : s.isDeafened = false) :
    (handleMessageA s now (msgOutputT t) =
      ({ s with liveOutput := s.liveOutput ++ t }, [])) ∧
    (handleMessageA s now (msgInputT t) =
      ({ s with liveInput := s.liveInput ++ t }, [])) ∧
    (handleMessageA s now msgTurnComplete =
      ({ s with
           history := s.history ++
             (if s.liveInput = "" then [] else [⟨"user", s.liveInput⟩]) ++
             (if s.liveOutput = "" then [] else [⟨"robot", s.liveOutput⟩])
           liveInput := ""
           liveOutput := "" }, [])) ∧
    (handleMessageB s now (msgOutputT t) =
      ({ s with liveOutput := s.liveOutput ++ t }, [])) ∧
    (handleMessageB s now (msgInputT t) =
      ({ s with liveInput := s.liveInput ++ t }, [])) ∧
    (handleMessageB s now msgTurnComplete =
      ({ s with
           history := s.history ++
             ((if s.liveInput = "" then [] else [⟨"user", s.liveInput⟩]) ++
               (if s.liveOutput = "" then [] else [⟨"robot", s.liveOutput⟩]))
           liveInput := ""
           liveOutput := "" }, [])) ∧
    (runMsgsA listenState
        [(0, msgOutputT "Hello"), (0, msgOutputT " there"), (0, msgTurnComplete)] =
      ({ listenState with history := [⟨"robot", "Hello there"⟩] }, [])) ∧
    (runMsgsB listenState
        [(0, msgOutputT "Hello"), (0, msgOutputT " there"), (0, msgTurnComplete)] =
      ({ listenState with history := [⟨"robot", "Hello there"⟩] }, [])) := by
  refine ⟨?_, ?_, ?_, ?_, ?_, ?_, by decide, by decide⟩
  · simp [handleMessageA, msgOutputT, transcriptsA, hd]
  · simp [handleMessageA, msgInputT, transcriptsA, hd]
  · simp only [handleMessageA, msgTurnComplete, hd, Bool.false_eq_true, if_false,
      transcriptsA, turnCompleteA, addLog]
    by_cases h1 : s.liveInput = "" <;> by_cases h2 : s.liveOutput = "" <;>
      simp [h1, h2, hd]
  · simp [handleMessageB, msgOutputT, transcriptsB, turnCompleteB]
  · simp [handleMessageB, msgInputT, transcriptsB, turnCompleteB]
  · simp only [handleMessageB, msgTurnComplete, transcriptsB, turnCompleteB]
    by_cases h1 : s.liveInput = "" <;> by_cases h2 : s.liveOutput = "" <;>
      simp [h1, h2]

theorem c7_witness :
    handleMessageA { listenState with liveInput := "hi", liveOutput := "yo" } 3
        msgTurnComplete =
      ({ listenState with
           history := [⟨"user", "hi"⟩, ⟨"robot", "yo"⟩]
           liveInput := ""
           liveOutput := "" }, []) := by
  have h := (c7_transcript_accumulation
    { listenState with liveInput := "hi", liveOutput := "yo" } 3 "x" rfl).2.2.1
  simpa using h

theorem countRespFor_append (a b : List Action) (i : String) :
    countRespFor (a ++ b) i = countRespFor a i + countRespFor b i := by
  simp [countRespFor, List.filter_append]

theorem countRespFor_single_resp (id name result i : String) :
    countRespFor [.toolResponse id name result] i = if id == i then 1 else 0 := by
  by_cases h : (id == i) = true <;> simp [countRespFor, h]

theorem toolCallA_count (fcs : List FunctionCall) :
    ∀ (s : EngineState) (acts : List Action) (i : String),
      countRespFor (toolCallA s acts fcs).2 i =
        countRespFor acts i +
          (fcs.filter (fun fc => fc.name == "update_spark_mood" && fc.id == i)).length := by
  induction fcs with
  | nil => intro s acts i; simp [toolCallA]
  | cons fc rest ih =>
    intro s acts i
    by_cases h : fc.name = "update_spark_mood"
    · have step : toolCallA s acts (fc :: rest) =
          toolCallA { s with mood := fc.args.mood }
            (acts ++ [.toolResponse fc.id fc.name "Mood synced."]) rest := by
        simp [toolCallA, h]
      rw [step, ih, countRespFor_append, countRespFor_single_resp,
        List.filter_cons]
      by_cases h2 : fc.id = i <;> simp [h, h2] <;> omega
    · have step : toolCallA s acts (fc :: rest) = toolCallA s acts rest := by
        simp [toolCallA, h]
      rw [step, ih, List.filter_cons]
      simp [h]

theorem toolCallB_count (fcs : List FunctionCall) :
    ∀ (s : EngineState) (acts : List Action) (i : String),
      countRespFor (toolCallB s acts fcs).2 i =
        countRespFor acts i +
          (fcs.filter (fun fc =>
            (fc.name == "update_sparky_mood" || fc.name == "report_faces") &&
              fc.id == i)).length := by
  induction fcs with
  | nil => intro s acts i; simp [toolCallB]
  | cons fc rest ih =>
    intro s acts i
    by_cases h1 : fc.name = "update_sparky_mood"
    · have hnr : ¬ fc.name = "report_faces" := by rw [h1]; decide
      have step : toolCallB s acts (fc :: rest) =
          toolCallB { s with mood := fc.args.mood }
            (acts ++ [.toolResponse fc.id fc.name "Mood updated"]) rest := by
        simp [toolCallB, h1, hnr]
      rw [step, ih, countRespFor_append, countRespFor_single_resp,
        List.filter_cons]
      by_cases h2 : fc.id = i <;> simp [h1, hnr, h2] <;> omega
    · by_cases h3 : fc.name = "report_faces"
      · have step : toolCallB s acts (fc :: rest) =
            toolCallB
              { s with detectedFaces := fc.args.faces.map faceBoxOf,
                       mood := "curious",
                       history := s.history ++
                         [⟨"system", facesLogText fc.args.faces.length⟩] }
              (acts ++ [.toolResponse fc.id fc.name
                ("Tracking " ++ toString fc.args.faces.length ++ " faces.")]) rest := by
          simp [toolCallB, h1, h3]
        rw [step, ih, countRespFor_append, countRespFor_single_resp,
          List.filter_cons]
        by_cases h2 : fc.id = i <;> simp [h1, h3, h2] <;> omega
      · have step : toolCallB s acts (fc :: rest) = toolCallB s acts rest := by
          simp [toolCallB, h1, h3]
        rw [step, ih, List.filter_cons]
        simp [h1, h3]

/-- C2 is false on the code: a tool call whose declared name the engine
does not recognise receives no tool-response frame at all — there is no
generic acknowledgement in either variant (variant A only answers
`update_spark_mood`; variant B only `update_sparky_mood` and
`report_faces`).  The claim demands exactly one response for this call. -/
theorem c2_counterexample :
    countRespFor (handleMessageA listenState 0
        (msgToolCalls [⟨"do_a_dance", "call-7", ⟨"", "", []⟩⟩])).2 "call-7" = 0 ∧
    countRespFor (handleMessageB listenState 0
        (msgToolCalls [⟨"do_a_dance", "call-7", ⟨"", "", []⟩⟩])).2 "call-7" = 0 := by
  decide

/-- C2 amended: a `ToolCall` event produces exactly one tool-response
frame per function call whose declared name the engine recognises
(`update_spark_mood` in variant A; `update_sparky_mood` or
`report_faces` in variant B), the response referencing that call's id;
unrecognised names receive no response. -/
theorem c2_amended_tool_responses (s : EngineState) (now : ℚ)
    (fcs : List FunctionCall) (i : String) (hd : s.isDeafened = false) :
    countRespFor (handleMessageA s now (msgToolCalls fcs)).2 i =
      (fcs.filter (fun fc => fc.name == "update_spark_mood" && fc.id == i)).length ∧
    countRespFor (handleMessageB s now (msgToolCalls fcs)).2 i =
      (fcs.filter (fun fc =>
        (fc.name == "update_sparky_mood" || fc.name == "report_faces") &&
          fc.id == i)).length := by
  constructor
  · have hA : handleMessageA s now (msgToolCalls fcs) = toolCallA s [] fcs := by
      simp [handleMessageA, msgToolCalls, hd]
    rw [hA, toolCallA_count]
    simp [countRespFor]
  · have hB : handleMessageB s now (msgToolCalls fcs) = toolCallB s [] fcs := by
      simp [handleMessageB, msgToolCalls]
    rw [hB, toolCallB_count]
    simp [countRespFor]

theorem c2_amended_witness :
    countRespFor (handleMessageA listenState 2 (msgToolCalls demoCalls)).2 "a" = 1 ∧
    countRespFor (handleMessageA listenState 2 (msgToolCalls demoCalls)).2 "b" = 0 ∧
    countRespFor (handleMessageB listenState 2 (msgToolCalls demoCalls)).2 "c" = 1 := by
  refine ⟨?_, ?_, ?_⟩
  · exact ((c2_amended_tool_responses listenState 2 demoCalls "a" rfl).1).trans (by decide)
  · exact ((c2_amended_tool_responses listenState 2 demoCalls "b" rfl).1).trans (by decide)
  · exact ((c2_amended_tool_responses listenState 2 demoCalls "c" rfl).2).trans (by decide)

/-- C4 is false on the code: while the muted flag is set, variant A's
`onaudioprocess` takes the `else` branch, which reports volume 0 and
sends nothing but never runs the RMS summation loop — the claim asserts
the RMS volume "is still computed" while muted. -/
theorem c4_counterexample :
    (onAudioProcessA { listenState with isMuted := true } [1/2]).rmsComputed = false := by
  decide

/-- C4 amended: for every microphone frame processed while muted (and
the session not `IDLE`), the handler still runs over the sampled frame
but skips the RMS computation, reports a volume of exactly zero, and
transmits nothing; for every frame processed while not muted, the RMS
is computed (and reported as the volume in the `LISTENING` state) and
an encoded audio chunk is sent. -/
theorem c4_amended_mute_behaviour (s : EngineState) (frame : List ℚ)
    (h : s.robotState ≠ .IDLE) :
    (s.isMuted = true →
      onAudioProcessA s frame = ⟨{ s with volume := 0 }, none, false⟩) ∧
    (s.isMuted = false →
      (onAudioProcessA s frame).sent = some (frame.map (fun v => v * 32768)) ∧
      (onAudioProcessA s frame).rmsComputed = true ∧
      (s.robotState = .LISTENING →
        (onAudioProcessA s frame).state.volume =
          Rat.sqrt (frameSumSq frame / (frame.length : ℚ)) * (5 / 2))) := by
  constructor
  · intro hm
    simp [onAudioProcessA, h, hm]
  · intro hm
    refine ⟨?_, ?_, ?_⟩ <;>
      by_cases hl : s.robotState = .LISTENING <;>
        simp [onAudioProcessA, h, hm, hl]

theorem c4_amended_witness :
    onAudioProcessA { listenState with isMuted := true } [1] =
      ⟨{ listenState with isMuted := true }, none, false⟩ ∧
    (onAudioProcessA listenState [1]).sent = some [32768] := by
  constructor
  · have h := (c4_amended_mute_behaviour
      { listenState with isMuted := true } [1] (by decide)).1 rfl
    simpa using h
  · have h := ((c4_amended_mute_behaviour listenState [1] (by decide)).2 rfl).1
    simpa using h

theorem addLog_fields (s : EngineState) (ty text : String) :
    (addLog s ty text).robotState = s.robotState ∧
    (addLog s ty text).errorDetail = s.errorDetail ∧
    (addLog s ty text).nextStartTime = s.nextStartTime ∧
    (addLog s ty text).sources = s.sources ∧
    (addLog s ty text).volume = s.volume := by
  unfold addLog
  split <;> simp

theorem handleErrorA_props (s : EngineState) (name msg : String) :
    (handleErrorA s name msg).errorDetail = some (classifyErrorA name msg) ∧
    ((classifyErrorA name msg).critical = true →
      (handleErrorA s name msg).robotState = .ERROR ∧
      (handleErrorA s name msg).nextStartTime = 0 ∧
      (handleErrorA s name msg).sources = []) ∧
    ((classifyErrorA name msg).critical = false →
      (handleErrorA s name msg).robotState = s.robotState ∧
      (handleErrorA s name msg).nextStartTime = s.nextStartTime ∧
      (handleErrorA s name msg).sources = s.sources) := by
  by_cases h : (classifyErrorA name msg).critical = true
  · obtain ⟨f1, f2, f3, f4, f5⟩ :=
      addLog_fields { s with errorDetail := some (classifyErrorA name msg) }
        "system" ("ERROR: " ++ (classifyErrorA name msg).message)
    refine ⟨?_, fun _ => ⟨?_, ?_, ?_⟩, fun hf => absurd h (by simp [hf])⟩ <;>
      simp [handleErrorA, h, stopSessionA, f2]
  · obtain ⟨f1, f2, f3, f4, f5⟩ :=
      addLog_fields { s with errorDetail := some (classifyErrorA name msg) }
        "system" ("ERROR: " ++ (classifyErrorA name msg).message)
    refine ⟨?_, fun hc => absurd hc h, fun _ => ⟨?_, ?_, ?_⟩⟩ <;>
      simp [handleErrorA, h, f1, f2, f3, f4]

/-- C5 is false on the code: variant A retries with a fixed 2000 ms
delay (no exponential growth, no jitter), and after its retries are
exhausted a generic connect failure goes through `handleError`, which
classifies it as a mere warning — the state is left at `CONNECTING`,
not the `ERROR` the claim requires after the retry bound. -/
theorem c5_counterexample :
    (driveA "Error" "network unreachable" 10 0 initState).1.robotState =
      .CONNECTING ∧
    ¬ (driveA "Error" "network unreachable" 10 0 initState).1.robotState =
      .ERROR ∧
    (driveA "Error" "network unreachable" 10 0 initState).2 = [2000, 2000] := by
  refine ⟨by decide, by decide, by decide⟩

/-- C5 amended: variant B retries up to 3 times with delay
`1000·2^attempt` ms plus the random jitter, and on exhaustion enters
`ERROR` with a critical user-facing message and schedules no further
retry; variant A retries up to 2 times at a fixed 2000 ms delay and on
exhaustion surfaces a user-facing message through `handleError` and
stops retrying, but enters `ERROR` only when the failure classifies as
critical (hardware-permission or API-key errors) — otherwise the state
is left unchanged with a dismissible warning. -/
theorem c5_amended_retry_policy (s : EngineState) (name msg : String)
    (j : ℚ) (c : ℕ) :
    (c < 2 → startFailureA (connectEntry s) c name msg = .retryAfter 2000) ∧
    (2 ≤ c → startFailureA (connectEntry s) c name msg =
      .done (handleErrorA (connectEntry s) name msg)) ∧
    ((handleErrorA s name msg).errorDetail = some (classifyErrorA name msg)) ∧
    ((classifyErrorA name msg).critical = true →
      (handleErrorA s name msg).robotState = .ERROR) ∧
    ((classifyErrorA name msg).critical = false →
      (handleErrorA s name msg).robotState = s.robotState) ∧
    (c < 3 → startFailureB (connectEntry s) c j msg =
      .retryAfter (2 ^ c * 1000 + j)) ∧
    (3 ≤ c → startFailureB (connectEntry s) c j msg =
      .done { connectEntry s with
                robotState := .ERROR
                errorDetail := some ⟨"Neural handshake failed: " ++ msg ++
                  ". Check environment variables for API_KEY.", true⟩ }) ∧
    ((driveB msg [j, j, j] 10 0 s).1.robotState = .ERROR) ∧
    ((driveB msg [j, j, j] 10 0 s).2 =
      [2 ^ 0 * 1000 + j, 2 ^ 1 * 1000 + j, 2 ^ 2 * 1000 + j]) := by
  refine ⟨?_, ?_, ?_, ?_, ?_, ?_, ?_, ?_, ?_⟩
  · intro hc; simp [startFailureA, hc]
  · intro hc; simp [startFailureA, Nat.not_lt.mpr hc]
  · exact (handleErrorA_props s name msg).1
  · intro hcrit; exact ((handleErrorA_props s name msg).2.1 hcrit).1
  · intro hcrit; exact ((handleErrorA_props s name msg).2.2 hcrit).1
  · intro hc; simp [startFailureB, hc]
  · intro hc; simp [startFailureB, Nat.not_lt.mpr hc]
  · rfl
  · rfl

theorem c5_amended_witness :
    startFailureA (connectEntry initState) 0 "Error" "boom" = .retryAfter 2000 ∧
    startFailureA (connectEntry initState) 2 "Error" "boom" =
      .done (handleErrorA (connectEntry initState) "Error" "boom") ∧
    startFailureB (connectEntry initState) 1 250 "boom" =
      .retryAfter (2 ^ 1 * 1000 + 250) ∧
    (driveB "boom" [250, 250, 250] 10 0 initState).1.robotState = .ERROR := by
  refine ⟨?_, ?_, ?_, ?_⟩
  · exact (c5_amended_retry_policy initState "Error" "boom" 250 0).1 (by decide)
  · exact (c5_amended_retry_policy initState "Error" "boom" 250 2).2.1 (by decide)
  · exact (c5_amended_retry_policy initState "Error" "boom" 250 1).2.2.2.2.2.1 (by decide)
  · exact (c5_amended_retry_policy initState "Error" "boom" 250 1).2.2.2.2.2.2.2.1

/-- C6 is false on the code: a non-normal channel closure while the
session is active is never retried and never re-enters `CONNECTING` —
variant B jumps straight to `ERROR` with a critical message, and
variant A hands the closure to `handleError`, which for the generic
"Link severed" message records a warning and leaves the state where it
was. -/
theorem c6_counterexample :
    (oncloseB listenState 1006 true).robotState = .ERROR ∧
    ¬ (oncloseB listenState 1006 true).robotState = .CONNECTING ∧
    (oncloseA listenState 1006).robotState = .LISTENING ∧
    ¬ (oncloseA listenState 1006).robotState = .CONNECTING := by
  refine ⟨by decide, by decide, by decide, by decide⟩

/-- C6 amended: a non-normal closure (code ≠ 1000) while the session is
flagged active is not retried: variant A routes it to the central error
handler (recording the classified error detail and, for non-critical
classifications such as the generic "Link severed" message, leaving the
state unchanged), while variant B transitions directly to `ERROR` with
a critical message; a normal closure (code 1000) or a closure while the
session is not flagged active returns the engine to `IDLE` and marks it
inactive, in both variants. -/
theorem c6_amended_close_handling (s : EngineState) (code : ℕ) (cap : Bool) :
    (code ≠ 1000 → s.isActive = true →
      oncloseA s code = handleErrorA s "Error" ("Link severed: " ++ toString code)) ∧
    (code ≠ 1000 → s.isActive = true →
      (classifyErrorA "Error" ("Link severed: " ++ toString code)).critical = false →
      (oncloseA s code).robotState = s.robotState ∧
      (oncloseA s code).errorDetail =
        some (classifyErrorA "Error" ("Link severed: " ++ toString code))) ∧
    (code ≠ 1000 → oncloseB s code true =
      { s with
          robotState := .ERROR
          errorDetail := some ⟨"Activation aborted (Code: " ++ toString code ++
            "). This often means the API key is missing or the project billing is inactive.",
            true⟩ }) ∧
    (code = 1000 ∨ s.isActive = false →
      oncloseA s code = { s with robotState := .IDLE, isActive := false }) ∧
    (code = 1000 ∨ cap = false →
      oncloseB s code cap = { s with robotState := .IDLE, isActive := false }) := by
  refine ⟨?_, ?_, ?_, ?_, ?_⟩
  · intro h1 h2; simp [oncloseA, h1, h2]
  · intro h1 h2 h3
    have he : oncloseA s code =
        handleErrorA s "Error" ("Link severed: " ++ toString code) := by
      simp [oncloseA, h1, h2]
    rw [he]
    exact ⟨((handleErrorA_props s "Error" ("Link severed: " ++ toString code)).2.2 h3).1,
      (handleErrorA_props s "Error" ("Link severed: " ++ toString code)).1⟩
  · intro h1; simp [oncloseB, h1]
  · intro h1
    rcases h1 with h1 | h1 <;> simp [oncloseA, h1]
  · intro h1
    rcases h1 with h1 | h1 <;> simp [oncloseB, h1]

theorem c6_amended_witness :
    oncloseB listenState 1006 true =
      { listenState with
          robotState := .ERROR
          errorDetail := some ⟨"Activation aborted (Code: 1006). This often means the API key is missing or the project billing is inactive.",
            true⟩ } ∧
    (oncloseA listenState 1006).robotState = .LISTENING ∧
    oncloseA deafState 1000 = { deafState with robotState := .IDLE, isActive := false } := by
  refine ⟨?_, ?_, ?_⟩
  · have h := (c6_amended_close_handling listenState 1006 true).2.2.1 (by decide)
    simpa using h
  · have h := ((c6_amended_close_handling listenState 1006 true).2.1
      (by decide) rfl (by decide)).1
    simpa using h
  · exact (c6_amended_close_handling deafState 1000 true).2.2.2.1 (Or.inl rfl)

theorem enqueueAllA_spec (l : List (ℚ × ℚ)) :
    ∀ s : EngineState,
      (enqueueAllA s l).sources =
        s.sources ++ specSources s.nextSid (specSchedule s.nextStartTime l) ∧
      (enqueueAllA s l).nextStartTime = specNext s.nextStartTime l ∧
      (l ≠ [] → (enqueueAllA s l).robotState = .SPEAKING) := by
  induction l with
  | nil =>
    intro s
    simp [enqueueAllA, specSchedule, specSources, specNext]
  | cons p rest ih =>
    intro s
    obtain ⟨now, dur⟩ := p
    have step : enqueueAllA s ((now, dur) :: rest) =
        enqueueAllA (scheduleAudioA s now dur) rest := rfl
    obtain ⟨ih1, ih2, ih3⟩ := ih (scheduleAudioA s now dur)
    refine ⟨?_, ?_, fun _ => ?_⟩
    · rw [step, ih1]
      simp [scheduleAudioA, specSchedule, specSources]
    · rw [step, ih2]
      simp [scheduleAudioA, specNext]
    · cases rest with
      | nil => rw [step]; simp [enqueueAllA, scheduleAudioA]
      | cons q qs => exact ih3 (by simp)

theorem scheduleAudioB_nonempty (s : EngineState) (now dur : ℚ)
    (h : s.sources ≠ []) : scheduleAudioB s now dur = scheduleAudioA s now dur := by
  have hnext : (if s.sources = [] then now
      else if s.nextStartTime < now then now else s.nextStartTime) =
      max s.nextStartTime now := by
    rw [if_neg h]
    rcases lt_or_le s.nextStartTime now with hlt | hle
    · rw [if_pos hlt, max_eq_right hlt.le]
    · rw [if_neg (not_lt.mpr hle), max_eq_left hle]
  simp only [scheduleAudioB, scheduleAudioA, hnext]

theorem scheduleAudioB_fresh (s : EngineState) (now dur : ℚ)
    (h : s.sources = []) (h0 : s.nextStartTime = 0) (hn : 0 ≤ now) :
    scheduleAudioB s now dur = scheduleAudioA s now dur := by
  simp only [scheduleAudioB, scheduleAudioA, h, h0, if_pos, max_eq_right hn]

theorem scheduleAudioA_sources_ne (s : EngineState) (now dur : ℚ) :
    (scheduleAudioA s now dur).sources ≠ [] := by
  simp [scheduleAudioA]

theorem enqueueAllB_eq_of_nonempty (l : List (ℚ × ℚ)) :
    ∀ s : EngineState, s.sources ≠ [] → enqueueAllB s l = enqueueAllA s l := by
  induction l with
  | nil => intro s _; rfl
  | cons p rest ih =>
    intro s h
    obtain ⟨now, dur⟩ := p
    calc enqueueAllB s ((now, dur) :: rest)
        = enqueueAllB (scheduleAudioB s now dur) rest := rfl
      _ = enqueueAllB (scheduleAudioA s now dur) rest := by
          rw [scheduleAudioB_nonempty s now dur h]
      _ = enqueueAllA (scheduleAudioA s now dur) rest :=
          ih _ (scheduleAudioA_sources_ne s now dur)
      _ = enqueueAllA s ((now, dur) :: rest) := rfl

theorem specSchedule_chain (rest : List (ℚ × ℚ)) :
    ∀ (e : ℚ) (prev : ℚ × ℚ), prev.1 + prev.2 = e → arrivesBeforeEnd e rest →
      List.Chain' (fun p q : ℚ × ℚ => q.1 = p.1 + p.2)
        (prev :: specSchedule e rest) := by
  induction rest with
  | nil =>
    intro e prev _ _
    simp [specSchedule]
  | cons p rest ih =>
    intro e prev hpe h
    obtain ⟨now, dur⟩ := p
    obtain ⟨h1, h2⟩ := h
    have hmax : max e now = e := max_eq_left h1
    rw [specSchedule, hmax, List.chain'_cons]
    exact ⟨hpe.symm, ih (e + dur) (e, dur) rfl h2⟩

/-- C1: scheduled start times follow the claim's recurrence
`start[i] = max(start[i-1] + d[i-1], now_at_enqueue[i])` — `specSchedule`
is that recurrence, each scheduled fragment advancing the cursor to
`start + duration`.  Variant A's enqueue fold realises exactly this
schedule (registering every fragment in flight with those start times
and ending `SPEAKING`); variant B's fold coincides with variant A's from
a fresh session; from a zeroed cursor the first start is anchored at
the enqueue-time clock; and under fast arrival the schedule is gapless
(each start equals the previous end). -/
theorem c1_gapless_scheduling (s : EngineState) (l : List (ℚ × ℚ)) :
    ((enqueueAllA s l).sources =
      s.sources ++ specSources s.nextSid (specSchedule s.nextStartTime l)) ∧
    ((enqueueAllA s l).nextStartTime = specNext s.nextStartTime l) ∧
    (l ≠ [] → (enqueueAllA s l).robotState = .SPEAKING) ∧
    (s.sources = [] → s.nextStartTime = 0 → (∀ p ∈ l, 0 ≤ p.1) →
      enqueueAllB s l = enqueueAllA s l) ∧
    (s.nextStartTime = 0 →
      ∀ (now dur : ℚ) (rest : List (ℚ × ℚ)), 0 ≤ now →
        specSchedule s.nextStartTime ((now, dur) :: rest) =
          (now, dur) :: specSchedule (now + dur) rest) ∧
    (fastArrival s.nextStartTime l →
      List.Chain' (fun p q : ℚ × ℚ => q.1 = p.1 + p.2)
        (specSchedule s.nextStartTime l)) := by
  obtain ⟨h1, h2, h3⟩ := enqueueAllA_spec l s
  refine ⟨h1, h2, h3, ?_, ?_, ?_⟩
  · intro hs h0 hnn
    cases l with
    | nil => rfl
    | cons p rest =>
      obtain ⟨now, dur⟩ := p
      calc enqueueAllB s ((now, dur) :: rest)
          = enqueueAllB (scheduleAudioB s now dur) rest := rfl
        _ = enqueueAllB (scheduleAudioA s now dur) rest := by
            rw [scheduleAudioB_fresh s now dur hs h0 (hnn (now, dur) (by simp))]
        _ = enqueueAllA (scheduleAudioA s now dur) rest :=
            enqueueAllB_eq_of_nonempty rest _ (scheduleAudioA_sources_ne s now dur)
        _ = enqueueAllA s ((now, dur) :: rest) := rfl
  · intro h0 now dur rest hn
    rw [specSchedule, h0, max_eq_right hn]
  · intro hf
    cases l with
    | nil => simp [specSchedule]
    | cons p rest =>
      obtain ⟨now, dur⟩ := p
      rw [specSchedule]
      exact specSchedule_chain rest (max s.nextStartTime now + dur)
        (max s.nextStartTime now, dur) rfl hf

theorem c1_witness :
    (enqueueAllA listenState [(1, 2), (2, 5)]).sources = [⟨1, 2, 0⟩, ⟨3, 5, 1⟩] ∧
    (enqueueAllA listenState [(1, 2), (2, 5)]).nextStartTime = 8 ∧
    (enqueueAllA listenState [(1, 2), (2, 5)]).robotState = .SPEAKING ∧
    enqueueAllB listenState [(1, 2), (2, 5)] =
      enqueueAllA listenState [(1, 2), (2, 5)] ∧
    List.Chain' (fun p q : ℚ × ℚ => q.1 = p.1 + p.2)
      (specSchedule 0 [(1, 2), (2, 5)]) := by
  obtain ⟨h1, h2, h3, h4, h5, h6⟩ :=
    c1_gapless_scheduling listenState [(1, 2), (2, 5)]
  have hf : fastArrival listenState.nextStartTime [(1, 2), (2, 5)] := by
    show arrivesBeforeEnd (max listenState.nextStartTime 1 + 2) [(2, 5)]
    refine ⟨?_, trivial⟩
    show (2 : ℚ) ≤ max 0 1 + 2
    norm_num [max_def]
  refine ⟨h1.trans ?_, h2.trans ?_, h3 (by decide), h4 rfl rfl (by decide), h6 hf⟩
  · norm_num [listenState, connectEntry, initState, specSchedule, specSources,
      max_def]
  · norm_num [listenState, connectEntry, initState, specNext, max_def]

/-! ## Invariant lemmas for the event-level step functions (claim C8) -/

theorem SidOk_of_eq {s s' : EngineState} (h1 : s'.sources = s.sources)
    (h2 : s'.nextSid = s.nextSid) (h : SidOk s) : SidOk s' := by
  unfold SidOk at *
  rw [h1, h2]
  exact h

theorem SchedOk_of_eq {s s' : EngineState} {now : ℚ}
    (h1 : s'.sources = s.sources) (h2 : s'.nextStartTime = s.nextStartTime)
    (h : SchedOk s now) : SchedOk s' now := by
  unfold SchedOk at *
  rw [h1, h2]
  exact h

theorem SchedOk_mono_clock {s : EngineState} {now now' : ℚ} (h : now ≤ now')
    (hc : SchedOk s now) : SchedOk s now' := by
  rcases hc with hc | hc
  · exact Or.inl (hc.trans h)
  · exact Or.inr hc

theorem sidok_snoc {l : List Source} {n : ℕ}
    (h1 : ∀ src ∈ l, src.sid < n)
    (h2 : (l.map (fun src => src.sid)).Nodup) (st dur : ℚ) :
    (∀ src ∈ l ++ [⟨st, dur, n⟩], src.sid < n + 1) ∧
    ((l ++ [(⟨st, dur, n⟩ : Source)]).map (fun src => src.sid)).Nodup := by
  constructor
  · intro src hsrc
    rcases List.mem_append.mp hsrc with hsrc | hsrc
    · exact (h1 src hsrc).trans (Nat.lt_succ_self n)
    · rcases List.mem_singleton.mp hsrc with rfl
      exact Nat.lt_succ_self n
  · rw [List.map_append, List.nodup_append]
    refine ⟨h2, by simp, ?_⟩
    intro x hx hx'
    simp only [List.map_cons, List.map_nil, List.mem_singleton] at hx'
    obtain ⟨src, hsrc, rfl⟩ := List.mem_map.mp hx
    exact absurd hx' (Nat.ne_of_lt (h1 src hsrc))

theorem toolCallB_schedfields (fcs : List FunctionCall) :
    ∀ (s : EngineState) (acts : List Action),
      (toolCallB s acts fcs).1.sources = s.sources ∧
      (toolCallB s acts fcs).1.nextStartTime = s.nextStartTime ∧
      (toolCallB s acts fcs).1.nextSid = s.nextSid := by
  induction fcs with
  | nil => intro s acts; exact ⟨rfl, rfl, rfl⟩
  | cons fc rest ih =>
    intro s acts
    by_cases h1 : fc.name = "update_sparky_mood"
    · have hnr : ¬ fc.name = "report_faces" := by rw [h1]; decide
      have step : toolCallB s acts (fc :: rest) =
          toolCallB { s with mood := fc.args.mood }
            (acts ++ [.toolResponse fc.id fc.name "Mood updated"]) rest := by
        simp [toolCallB, h1, hnr]
      rw [step]
      exact ih _ _
    · by_cases h3 : fc.name = "report_faces"
      · have step : toolCallB s acts (fc :: rest) =
            toolCallB
              { s with detectedFaces := fc.args.faces.map faceBoxOf,
                       mood := "curious",
                       history := s.history ++
                         [⟨"system", facesLogText fc.args.faces.length⟩] }
              (acts ++ [.toolResponse fc.id fc.name
                ("Tracking " ++ toString fc.args.faces.length ++ " faces.")]) rest := by
          simp [toolCallB, h1, h3]
        rw [step]
        exact ih _ _
      · have step : toolCallB s acts (fc :: rest) = toolCallB s acts rest := by
          simp [toolCallB, h1, h3]
        rw [step]
        exact ih _ _

theorem transcriptsB_sid (s : EngineState) (sc : ServerContent) :
    (transcriptsB s sc).nextSid = s.nextSid := by
  cases h1 : sc.inputTranscription <;> cases h2 : sc.outputTranscription <;>
    simp [transcriptsB, h1, h2]

theorem turnCompleteB_sid (s : EngineState) :
    (turnCompleteB s).nextSid = s.nextSid := by
  simp only [turnCompleteB]
  split <;> simp

theorem scheduleAudioB_inv (s : EngineState) (now dur : ℚ)
    (hdur : 0 ≤ dur) (hso : SidOk s) (hsc : SchedOk s now) :
    SidOk (scheduleAudioB s now dur) ∧
    SchedOk (scheduleAudioB s now dur) now ∧
    s.nextStartTime ≤ (scheduleAudioB s now dur).nextStartTime := by
  obtain ⟨hso1, hso2⟩ := hso
  by_cases h : s.sources = []
  · have hle : s.nextStartTime ≤ now := by
      rcases hsc with hsc | ⟨src, hsrc, _⟩
      · exact hsc
      · rw [h] at hsrc; simp at hsrc
    have hrw : scheduleAudioB s now dur =
        { s with robotState := .SPEAKING,
                 nextStartTime := now + dur,
                 sources := s.sources ++ [⟨now, dur, s.nextSid⟩],
                 nextSid := s.nextSid + 1 } := by
      simp [scheduleAudioB, h]
    rw [hrw]
    obtain ⟨k1, k2⟩ := sidok_snoc hso1 hso2 now dur
    exact ⟨⟨k1, k2⟩, Or.inr ⟨⟨now, dur, s.nextSid⟩, by simp, rfl⟩,
      hle.trans (le_add_of_nonneg_right hdur)⟩
  · rw [scheduleAudioB_nonempty s now dur h]
    obtain ⟨k1, k2⟩ := sidok_snoc hso1 hso2 (max s.nextStartTime now) dur
    refine ⟨⟨k1, k2⟩,
      Or.inr ⟨⟨max s.nextStartTime now, dur, s.nextSid⟩, by simp [scheduleAudioA], rfl⟩, ?_⟩
    exact (le_max_left _ _).trans (le_add_of_nonneg_right hdur)

theorem modelTurnB_inv (parts : List Part) :
    ∀ (s : EngineState) (now : ℚ),
      (∀ p ∈ parts, ∀ d : ℚ, p.inlineDataDur = some d → 0 ≤ d) →
      SidOk s → SchedOk s now →
      SidOk (modelTurnB s now parts) ∧
      SchedOk (modelTurnB s now parts) now ∧
      s.nextStartTime ≤ (modelTurnB s now parts).nextStartTime := by
  induction parts with
  | nil =>
    intro s now _ hso hsc
    exact ⟨hso, hsc, le_refl _⟩
  | cons p rest ih =>
    intro s now hd hso hsc
    cases hp : p.inlineDataDur with
    | none =>
      have step : modelTurnB s now (p :: rest) = modelTurnB s now rest := by
        simp [modelTurnB, hp]
      rw [step]
      exact ih s now (fun q hq => hd q (List.mem_cons_of_mem p hq)) hso hsc
    | some d =>
      have step : modelTurnB s now (p :: rest) =
          modelTurnB (scheduleAudioB s now d) now rest := by
        simp [modelTurnB, hp]
      rw [step]
      obtain ⟨k1, k2, k3⟩ := scheduleAudioB_inv s now d
        (hd p (List.mem_cons_self p rest) d hp) hso hsc
      obtain ⟨m1, m2, m3⟩ := ih (scheduleAudioB s now d) now
        (fun q hq => hd q (List.mem_cons_of_mem p hq)) k1 k2
      exact ⟨m1, m2, k3.trans m3⟩

theorem interruptedB_fields (s : EngineState) :
    (interruptedB s).1.sources = [] ∧
    (interruptedB s).1.nextStartTime = 0 ∧
    (interruptedB s).1.nextSid = s.nextSid :=
  ⟨rfl, rfl, rfl⟩

theorem completeSource_fields (s : EngineState) (sid : ℕ) :
    (completeSource s sid).nextStartTime = s.nextStartTime ∧
    (completeSource s sid).nextSid = s.nextSid ∧
    (completeSource s sid).sources =
      s.sources.filter (fun src => src.sid ≠ sid) := by
  simp only [completeSource]
  split <;> exact ⟨rfl, rfl, rfl⟩

theorem completeSource_sidok (s : EngineState) (sid : ℕ) (hso : SidOk s) :
    SidOk (completeSource s sid) := by
  obtain ⟨h1, h2⟩ := hso
  obtain ⟨f1, f2, f3⟩ := completeSource_fields s sid
  constructor
  · intro src hsrc
    rw [f3] at hsrc
    rw [f2]
    exact h1 src (List.mem_of_mem_filter hsrc)
  · rw [f3]
    exact h2.sublist (List.Sublist.map _ (List.filter_sublist _))

theorem completeSource_schedok (s : EngineState) (sid : ℕ) (now now' : ℚ)
    (hso : SidOk s) (hsc : SchedOk s now) (hnn : now ≤ now')
    (src0 : Source)
    (hfind : s.sources.find? (fun src => src.sid == sid) = some src0)
    (hend : src0.start + src0.dur ≤ now') :
    SchedOk (completeSource s sid) now' := by
  obtain ⟨f1, f2, f3⟩ := completeSource_fields s sid
  have hmem0 : src0 ∈ s.sources := List.mem_of_find?_eq_some hfind
  have hsid0 : src0.sid = sid := by
    have := List.find?_some hfind
    simpa using this
  rcases hsc with hsc | ⟨src, hmem, hendeq⟩
  · exact Or.inl (by rw [f1]; exact hsc.trans hnn)
  · by_cases hcase : src.sid = sid
    · have hss : src = src0 := by
        have hinj := List.inj_on_of_nodup_map hso.2
        exact hinj hmem hmem0 (by rw [hcase, hsid0])
      refine Or.inl ?_
      rw [f1, ← hendeq, hss]
      exact hend
    · refine Or.inr ⟨src, ?_, by rw [f1]; exact hendeq⟩
      rw [f3]
      rw [List.mem_filter]
      exact ⟨hmem, by simpa using hcase⟩

theorem onAudioProcessB_fields (s : EngineState) (frame : List ℚ) :
    (onAudioProcessB s frame).1.sources = s.sources ∧
    (onAudioProcessB s frame).1.nextStartTime = s.nextStartTime ∧
    (onAudioProcessB s frame).1.nextSid = s.nextSid := by
  unfold onAudioProcessB
  split
  · exact ⟨rfl, rfl, rfl⟩
  · split <;> exact ⟨rfl, rfl, rfl⟩

theorem oncloseB_fields (s : EngineState) (code : ℕ) (cap : Bool) :
    (oncloseB s code cap).sources = s.sources ∧
    (oncloseB s code cap).nextStartTime = s.nextStartTime ∧
    (oncloseB s code cap).nextSid = s.nextSid := by
  unfold oncloseB
  split <;> exact ⟨rfl, rfl, rfl⟩

theorem tailB_inv (s2 : EngineState) (sc : ServerContent) (now : ℚ)
    (hso : SidOk s2) (hsc : SchedOk s2 now) :
    (SidOk (turnCompleteB (transcriptsB s2 sc)) ∧
      SchedOk (turnCompleteB (transcriptsB s2 sc)) now ∧
      (turnCompleteB (transcriptsB s2 sc)).nextStartTime = s2.nextStartTime) ∧
    (SidOk (transcriptsB s2 sc) ∧
      SchedOk (transcriptsB s2 sc) now ∧
      (transcriptsB s2 sc).nextStartTime = s2.nextStartTime) := by
  obtain ⟨t1, t2, t3, t4⟩ := transcriptsB_fields s2 sc
  have t5 := transcriptsB_sid s2 sc
  obtain ⟨u1, u2, u3, u4⟩ := turnCompleteB_fields (transcriptsB s2 sc)
  have u5 := turnCompleteB_sid (transcriptsB s2 sc)
  have hso1 : SidOk (transcriptsB s2 sc) := SidOk_of_eq t1 t5 hso
  have hsc1 : SchedOk (transcriptsB s2 sc) now := SchedOk_of_eq t1 t2 hsc
  exact ⟨⟨SidOk_of_eq u1 u5 hso1, SchedOk_of_eq u1 u2 hsc1, u2.trans t2⟩,
    ⟨hso1, hsc1, t2⟩⟩

theorem headB_inv (s : EngineState) (otc : Option (List FunctionCall)) (now : ℚ)
    (hso : SidOk s) (hsc : SchedOk s now) :
    SidOk (match otc with
      | some fcs => toolCallB s [] fcs
      | none => (s, ([] : List Action))).1 ∧
    SchedOk (match otc with
      | some fcs => toolCallB s [] fcs
      | none => (s, ([] : List Action))).1 now ∧
    (match otc with
      | some fcs => toolCallB s [] fcs
      | none => (s, ([] : List Action))).1.nextStartTime = s.nextStartTime := by
  cases otc with
  | none => exact ⟨hso, hsc, rfl⟩
  | some fcs =>
    obtain ⟨f1, f2, f3⟩ := toolCallB_schedfields fcs s []
    exact ⟨SidOk_of_eq f1 f3 hso, SchedOk_of_eq f1 f2 hsc, f2⟩

theorem msgDursNonneg_parts {osc : Option ServerContent}
    {otc : Option (List FunctionCall)} {sc : ServerContent} {parts : List Part}
    (hosc : osc = some sc) (hmt : sc.modelTurn = some parts)
    (hd : msgDursNonneg ⟨osc, otc⟩ = true) :
    ∀ p ∈ parts, ∀ d : ℚ, p.inlineDataDur = some d → 0 ≤ d := by
  subst hosc
  intro p hp d hpd
  simp only [msgDursNonneg, hmt, List.all_eq_true] at hd
  have := hd p hp
  rw [hpd] at this
  exact of_decide_eq_true this

theorem interruptedB_inv (s2 : EngineState) (now : ℚ) (h0 : 0 ≤ now) :
    SidOk (interruptedB s2).1 ∧ SchedOk (interruptedB s2).1 now := by
  refine ⟨⟨?_, ?_⟩, Or.inl h0⟩ <;> simp [interruptedB]

theorem handleMessageB_decomp (s : EngineState) (now : ℚ)
    (otc : Option (List FunctionCall)) (sc : ServerContent) :
    (handleMessageB s now ⟨some sc, otc⟩).1 =
      msgTailB (match otc with
        | some fcs => toolCallB s [] fcs
        | none => (s, ([] : List Action))).1 now sc := by
  rcases sc with ⟨o, i, tc, mt, intr⟩
  cases otc <;> cases mt <;> cases tc <;> cases intr <;> rfl

theorem tailIf_inv (s3 : EngineState) (sc : ServerContent) (now : ℚ)
    (hso : SidOk s3) (hsc : SchedOk s3 now) :
    SidOk (if sc.turnComplete then turnCompleteB (transcriptsB s3 sc)
      else transcriptsB s3 sc) ∧
    SchedOk (if sc.turnComplete then turnCompleteB (transcriptsB s3 sc)
      else transcriptsB s3 sc) now ∧
    (if sc.turnComplete then turnCompleteB (transcriptsB s3 sc)
      else transcriptsB s3 sc).nextStartTime = s3.nextStartTime := by
  obtain ⟨⟨w1, w2, w3⟩, ⟨v1, v2, v3⟩⟩ := tailB_inv s3 sc now hso hsc
  by_cases htc : sc.turnComplete = true
  · rw [if_pos htc]
    exact ⟨w1, w2, w3⟩
  · rw [if_neg htc]
    exact ⟨v1, v2, v3⟩

theorem msgTailB_inv (sc : ServerContent) (base : EngineState) (now : ℚ)
    (h0 : 0 ≤ now)
    (hparts : ∀ parts, sc.modelTurn = some parts →
      ∀ p ∈ parts, ∀ d : ℚ, p.inlineDataDur = some d → 0 ≤ d)
    (hso : SidOk base) (hsc : SchedOk base now) :
    SidOk (msgTailB base now sc) ∧ SchedOk (msgTailB base now sc) now ∧
    (sc.interrupted = false →
      base.nextStartTime ≤ (msgTailB base now sc).nextStartTime) := by
  have h2 : SidOk (msgModelB base now sc) ∧ SchedOk (msgModelB base now sc) now ∧
      base.nextStartTime ≤ (msgModelB base now sc).nextStartTime := by
    cases hmt : sc.modelTurn with
    | none =>
      simp only [msgModelB, hmt]
      exact ⟨hso, hsc, le_refl _⟩
    | some parts =>
      simp only [msgModelB, hmt]
      exact modelTurnB_inv parts base now (hparts parts hmt) hso hsc
  obtain ⟨m1, m2, m3⟩ := h2
  simp only [msgTailB]
  by_cases hint : sc.interrupted = true
  · rw [if_pos hint]
    obtain ⟨i1, i2⟩ := interruptedB_inv (msgModelB base now sc) now h0
    obtain ⟨r1, r2, r3⟩ :=
      tailIf_inv (interruptedB (msgModelB base now sc)).1 sc now i1 i2
    exact ⟨r1, r2, fun hcon => absurd hint (by simp [hcon])⟩
  · rw [if_neg hint]
    obtain ⟨r1, r2, r3⟩ := tailIf_inv (msgModelB base now sc) sc now m1 m2
    exact ⟨r1, r2, fun _ => m3.trans (le_of_eq r3.symm)⟩

theorem handleMessageB_inv (s : EngineState) (now : ℚ) (m : ServerMessage)
    (h0 : 0 ≤ now) (hd : msgDursNonneg m = true)
    (hso : SidOk s) (hsc : SchedOk s now) :
    SidOk (handleMessageB s now m).1 ∧
    SchedOk (handleMessageB s now m).1 now ∧
    ((match m.serverContent with
      | some sc => sc.interrupted
      | none => false) = false →
      s.nextStartTime ≤ (handleMessageB s now m).1.nextStartTime) := by
  rcases m with ⟨osc, otc⟩
  obtain ⟨b1, b2, b3⟩ := headB_inv s otc now hso hsc
  cases osc with
  | none =>
    cases otc with
    | none => exact ⟨hso, hsc, fun _ => le_refl _⟩
    | some fcs =>
      obtain ⟨f1, f2, f3⟩ := toolCallB_schedfields fcs s []
      exact ⟨SidOk_of_eq f1 f3 hso, SchedOk_of_eq f1 f2 hsc,
        fun _ => le_of_eq f2.symm⟩
  | some sc =>
    have hparts : ∀ parts, sc.modelTurn = some parts →
        ∀ p ∈ parts, ∀ d : ℚ, p.inlineDataDur = some d → 0 ≤ d :=
      fun parts hmt => msgDursNonneg_parts rfl hmt hd
    obtain ⟨t1, t2, t3⟩ := msgTailB_inv sc
      (match otc with
        | some fcs => toolCallB s [] fcs
        | none => (s, ([] : List Action))).1 now h0 hparts b1 b2
    rw [handleMessageB_decomp s now otc sc]
    exact ⟨t1, t2, fun hint => le_of_eq b3.symm |>.trans (t3 hint)⟩

theorem transcriptsA_next (s : EngineState) (sc : ServerContent) :
    (transcriptsA s sc).nextStartTime = s.nextStartTime := by
  cases h1 : sc.outputTranscription <;> cases h2 : sc.inputTranscription <;>
    simp [transcriptsA, h1, h2]

theorem turnCompleteA_next (s : EngineState) :
    (turnCompleteA s).nextStartTime = s.nextStartTime := by
  by_cases h1 : s.liveInput = "" <;> by_cases h2 : s.liveOutput = "" <;>
    simp [turnCompleteA, addLog, h1, h2]

theorem toolCallA_next (fcs : List FunctionCall) :
    ∀ (s : EngineState) (acts : List Action),
      (toolCallA s acts fcs).1.nextStartTime = s.nextStartTime := by
  induction fcs with
  | nil => intro s acts; rfl
  | cons fc rest ih =>
    intro s acts
    by_cases h : fc.name = "update_spark_mood"
    · have step : toolCallA s acts (fc :: rest) =
          toolCallA { s with mood := fc.args.mood }
            (acts ++ [.toolResponse fc.id fc.name "Mood synced."]) rest := by
        simp [toolCallA, h]
      rw [step]
      exact ih _ _
    · have step : toolCallA s acts (fc :: rest) = toolCallA s acts rest := by
        simp [toolCallA, h]
      rw [step]
      exact ih _ _

theorem scheduleAudioA_mono (s : EngineState) (now dur : ℚ) (hdur : 0 ≤ dur) :
    s.nextStartTime ≤ (scheduleAudioA s now dur).nextStartTime :=
  (le_max_left _ _).trans (le_add_of_nonneg_right hdur)

theorem modelTurnA_mono (parts : List Part) :
    ∀ (s : EngineState) (now : ℚ),
      (∀ p ∈ parts, ∀ d : ℚ, p.inlineDataDur = some d → 0 ≤ d) →
      s.nextStartTime ≤ (modelTurnA s now parts).nextStartTime := by
  induction parts with
  | nil => intro s now _; exact le_refl _
  | cons p rest ih =>
    intro s now hd
    cases hp : p.inlineDataDur with
    | none =>
      have step : modelTurnA s now (p :: rest) = modelTurnA s now rest := by
        simp [modelTurnA, hp]
      rw [step]
      exact ih s now (fun q hq => hd q (List.mem_cons_of_mem p hq))
    | some d =>
      have step : modelTurnA s now (p :: rest) =
          modelTurnA (scheduleAudioA s now d) now rest := by
        simp [modelTurnA, hp]
      rw [step]
      exact (scheduleAudioA_mono s now d
        (hd p (List.mem_cons_self p rest) d hp)).trans
        (ih _ now (fun q hq => hd q (List.mem_cons_of_mem p hq)))

theorem handleMessageA_decomp (s : EngineState) (now : ℚ)
    (sc : ServerContent) (otc : Option (List FunctionCall))
    (hd : s.isDeafened = false) :
    (handleMessageA s now ⟨some sc, otc⟩).1 = msgTailA s now sc otc := by
  rcases sc with ⟨o, i, tc, mt, intr⟩
  cases otc <;> cases tc <;> cases mt <;> cases intr <;>
    simp [handleMessageA, msgTailA, hd]

theorem handleMessageA_none_decomp (s : EngineState) (now : ℚ)
    (otc : Option (List FunctionCall)) (hd : s.isDeafened = false) :
    (handleMessageA s now ⟨none, otc⟩).1 =
      (match otc with
        | some fcs => toolCallA s [] fcs
        | none => (s, ([] : List Action))).1 := by
  cases otc <;> simp [handleMessageA, hd]

theorem handleMessageA_mono (s : EngineState) (now : ℚ) (m : ServerMessage)
    (hdn : msgDursNonneg m = true)
    (hint : (match m.serverContent with
      | some sc => sc.interrupted
      | none => false) = false) :
    s.nextStartTime ≤ (handleMessageA s now m).1.nextStartTime := by
  by_cases hd : s.isDeafened = true
  · rw [handleMessageA_deafened hd]
  · have hd' : s.isDeafened = false := by simpa using hd
    rcases m with ⟨osc, otc⟩
    cases osc with
    | none =>
      rw [handleMessageA_none_decomp s now otc hd']
      cases otc with
      | none => exact le_refl _
      | some fcs => exact le_of_eq (toolCallA_next fcs s []).symm
    | some sc =>
      rw [handleMessageA_decomp s now sc otc hd']
      have hint' : sc.interrupted = false := hint
      have hparts : ∀ parts, sc.modelTurn = some parts →
          ∀ p ∈ parts, ∀ d : ℚ, p.inlineDataDur = some d → 0 ≤ d :=
        fun parts hmt => msgDursNonneg_parts rfl hmt hdn
      simp only [msgTailA, hint', Bool.false_eq_true, if_false]
      have e1 := transcriptsA_next s sc
      have e2 : (if sc.turnComplete then turnCompleteA (transcriptsA s sc)
          else transcriptsA s sc).nextStartTime = s.nextStartTime := by
        by_cases htc : sc.turnComplete = true
        · rw [if_pos htc, turnCompleteA_next, e1]
        · rw [if_neg htc, e1]
      cases otc with
      | none =>
        cases hmt : sc.modelTurn with
        | none => simpa using le_of_eq e2.symm
        | some parts =>
          simp only [hmt]
          exact (le_of_eq e2.symm).trans
            (modelTurnA_mono parts _ now (hparts parts hmt))
      | some fcs =>
        have e3 : (toolCallA (if sc.turnComplete then
              turnCompleteA (transcriptsA s sc) else transcriptsA s sc)
            [] fcs).1.nextStartTime = s.nextStartTime :=
          (toolCallA_next fcs _ []).trans e2
        cases hmt : sc.modelTurn with
        | none => simpa using le_of_eq e3.symm
        | some parts =>
          simp only [hmt]
          exact (le_of_eq e3.symm).trans
            (modelTurnA_mono parts _ now (hparts parts hmt))

theorem onAudioProcessA_next (s : EngineState) (frame : List ℚ) :
    (onAudioProcessA s frame).state.nextStartTime = s.nextStartTime := by
  unfold onAudioProcessA
  split
  · rfl
  · split
    · split <;> rfl
    · rfl

theorem sessionStartB_inv (c0 : ℚ) (h : 0 ≤ c0) : InvB (sessionStartB c0) := by
  refine ⟨h, ⟨?_, ?_⟩, Or.inl ?_⟩
  · intro src hsrc
    simp [sessionStartB, connectEntry, initState] at hsrc
  · simp [sessionStartB, connectEntry, initState, SidOk]
  · show (0 : ℚ) ≤ c0
    exact h

theorem stepB_inv (p p' : EngineState × ℚ) (e : EventB) (hp : InvB p)
    (hs : stepB p e = some p') : InvB p' := by
  obtain ⟨h0, hso, hsc⟩ := hp
  cases e with
  | msg now m =>
    simp only [stepB] at hs
    by_cases hc : p.2 ≤ now ∧ msgDursNonneg m = true
    · rw [if_pos hc] at hs
      obtain ⟨hc1, hc2⟩ := hc
      obtain rfl : ((handleMessageB p.1 now m).1, now) = p' := Option.some.inj hs
      obtain ⟨k1, k2, k3⟩ := handleMessageB_inv p.1 now m (h0.trans hc1) hc2 hso
        (SchedOk_mono_clock hc1 hsc)
      exact ⟨h0.trans hc1, k1, k2⟩
    · rw [if_neg hc] at hs
      cases hs
  | mic frame =>
    obtain rfl : ((onAudioProcessB p.1 frame).1, p.2) = p' := Option.some.inj hs
    obtain ⟨f1, f2, f3⟩ := onAudioProcessB_fields p.1 frame
    exact ⟨h0, SidOk_of_eq f1 f3 hso, SchedOk_of_eq f1 f2 hsc⟩
  | complete now sid =>
    simp only [stepB] at hs
    cases hfind : p.1.sources.find? (fun src => src.sid == sid) with
    | none => rw [hfind] at hs; cases hs
    | some src0 =>
      rw [hfind] at hs
      dsimp only at hs
      by_cases hc : p.2 ≤ now ∧ src0.start + src0.dur ≤ now
      · rw [if_pos hc] at hs
        obtain ⟨hc1, hc2⟩ := hc
        obtain rfl : (completeSource p.1 sid, now) = p' := Option.some.inj hs
        exact ⟨h0.trans hc1, completeSource_sidok p.1 sid hso,
          completeSource_schedok p.1 sid p.2 now hso hsc hc1 src0 hfind hc2⟩
      · rw [if_neg hc] at hs
        cases hs
  | close code cap =>
    obtain rfl : (oncloseB p.1 code cap, p.2) = p' := Option.some.inj hs
    obtain ⟨f1, f2, f3⟩ := oncloseB_fields p.1 code cap
    exact ⟨h0, SidOk_of_eq f1 f3 hso, SchedOk_of_eq f1 f2 hsc⟩
  | stop =>
    obtain rfl : ((stopSessionB p.1).1, p.2) = p' := Option.some.inj hs
    refine ⟨h0, ⟨?_, ?_⟩, Or.inl h0⟩
    · intro src hsrc
      simp [stopSessionB] at hsrc
    · simp [stopSessionB]

theorem runB_inv (tr : List EventB) :
    ∀ p q : EngineState × ℚ, InvB p → runB p tr = some q → InvB q := by
  induction tr with
  | nil =>
    intro p q hp hr
    obtain rfl : p = q := Option.some.inj hr
    exact hp
  | cons e rest ih =>
    intro p q hp hr
    simp only [runB] at hr
    cases hstep : stepB p e with
    | none => rw [hstep] at hr; cases hr
    | some p1 =>
      rw [hstep] at hr
      exact ih p1 q (stepB_inv p p1 e hp hstep) hr

theorem stepB_mono (p p' : EngineState × ℚ) (e : EventB) (hp : InvB p)
    (hs : stepB p e = some p') (hr : isResetB e = false) :
    p.1.nextStartTime ≤ p'.1.nextStartTime := by
  obtain ⟨h0, hso, hsc⟩ := hp
  cases e with
  | msg now m =>
    simp only [stepB] at hs
    by_cases hc : p.2 ≤ now ∧ msgDursNonneg m = true
    · rw [if_pos hc] at hs
      obtain ⟨hc1, hc2⟩ := hc
      obtain rfl : ((handleMessageB p.1 now m).1, now) = p' := Option.some.inj hs
      exact (handleMessageB_inv p.1 now m (h0.trans hc1) hc2 hso
        (SchedOk_mono_clock hc1 hsc)).2.2 hr
    · rw [if_neg hc] at hs
      cases hs
  | mic frame =>
    obtain rfl : ((onAudioProcessB p.1 frame).1, p.2) = p' := Option.some.inj hs
    exact le_of_eq (onAudioProcessB_fields p.1 frame).2.1.symm
  | complete now sid =>
    simp only [stepB] at hs
    cases hfind : p.1.sources.find? (fun src => src.sid == sid) with
    | none => rw [hfind] at hs; cases hs
    | some src0 =>
      rw [hfind] at hs
      dsimp only at hs
      by_cases hc : p.2 ≤ now ∧ src0.start + src0.dur ≤ now
      · rw [if_pos hc] at hs
        obtain rfl : (completeSource p.1 sid, now) = p' := Option.some.inj hs
        exact le_of_eq (completeSource_fields p.1 sid).1.symm
      · rw [if_neg hc] at hs
        cases hs
  | close code cap =>
    obtain rfl : (oncloseB p.1 code cap, p.2) = p' := Option.some.inj hs
    exact le_of_eq (oncloseB_fields p.1 code cap).2.1.symm
  | stop => simp [isResetB] at hr

theorem stepA_mono (p p' : EngineState × ℚ) (e : EventA)
    (hs : stepA p e = some p') (hr : isResetA p.1 e = false) :
    p.1.nextStartTime ≤ p'.1.nextStartTime := by
  cases e with
  | msg now m =>
    simp only [stepA] at hs
    by_cases hc : p.2 ≤ now ∧ msgDursNonneg m = true
    · rw [if_pos hc] at hs
      obtain rfl : ((handleMessageA p.1 now m).1, now) = p' := Option.some.inj hs
      exact handleMessageA_mono p.1 now m hc.2 hr
    · rw [if_neg hc] at hs
      cases hs
  | mic frame =>
    obtain rfl : ((onAudioProcessA p.1 frame).state, p.2) = p' := Option.some.inj hs
    exact le_of_eq (onAudioProcessA_next p.1 frame).symm
  | complete now sid =>
    simp only [stepA] at hs
    cases hfind : p.1.sources.find? (fun src => src.sid == sid) with
    | none => rw [hfind] at hs; cases hs
    | some src0 =>
      rw [hfind] at hs
      dsimp only at hs
      by_cases hc : p.2 ≤ now ∧ src0.start + src0.dur ≤ now
      · rw [if_pos hc] at hs
        obtain rfl : (completeSource p.1 sid, now) = p' := Option.some.inj hs
        exact le_of_eq (completeSource_fields p.1 sid).1.symm
      · rw [if_neg hc] at hs
        cases hs
  | close code =>
    obtain rfl : (oncloseA p.1 code, p.2) = p' := Option.some.inj hs
    by_cases hcl : code ≠ 1000 ∧ p.1.isActive = true
    · have hcrit : (classifyErrorA "Error"
          ("Link severed: " ++ toString code)).critical = false := by
        simp only [isResetA] at hr
        simpa [hcl.1, hcl.2] using hr
      have he : oncloseA p.1 code =
          handleErrorA p.1 "Error" ("Link severed: " ++ toString code) := by
        simp [oncloseA, hcl.1, hcl.2]
      rw [he]
      exact le_of_eq
        (((handleErrorA_props p.1 "Error"
          ("Link severed: " ++ toString code)).2.2 hcrit).2.1).symm
    · have he : oncloseA p.1 code =
          { p.1 with robotState := .IDLE, isActive := false } := by
        simp only [oncloseA]
        rw [if_neg hcl]
      rw [he]
  | stop => simp [isResetA] at hr
  | deafen b =>
    by_cases hb : b = true
    · simp only [stepA] at hs
      rw [if_pos hb] at hs
      obtain rfl : ((deafenOnA p.1).1, p.2) = p' := Option.some.inj hs
      exact le_of_eq rfl
    · simp only [stepA] at hs
      rw [if_neg hb] at hs
      obtain rfl : ({ p.1 with isDeafened := false }, p.2) = p' := Option.some.inj hs
      exact le_of_eq rfl
  | mute b =>
    obtain rfl : ({ p.1 with isMuted := b }, p.2) = p' := Option.some.inj hs
    exact le_of_eq rfl

/-- C8: within one session the playback cursor `nextStartTime` is
monotonically non-decreasing under every admissible engine event other
than the explicitly resetting ones — an `Interrupted` message, an
explicit teardown (`stopSession`), and, in variant A, a non-normal
close whose error classifies as critical (which tears the session
down); session creation (`connectEntry`) and those events are the only
points that put the cursor back to zero.  For variant A this holds at
every state; for variant B it holds along every event trace from a
fresh session (the reachability invariant is needed because variant B
re-anchors the cursor to the clock when the in-flight set is empty). -/
theorem c8_cursor_monotone :
    (∀ (p p' : EngineState × ℚ) (e : EventA),
      stepA p e = some p' → isResetA p.1 e = false →
      p.1.nextStartTime ≤ p'.1.nextStartTime) ∧
    (∀ (c0 : ℚ) (tr : List EventB) (q q' : EngineState × ℚ) (e : EventB),
      0 ≤ c0 → runB (sessionStartB c0) tr = some q → stepB q e = some q' →
      isResetB e = false → q.1.nextStartTime ≤ q'.1.nextStartTime) := by
  constructor
  · exact fun p p' e hs hr => stepA_mono p p' e hs hr
  · intro c0 tr q q' e h0 hrun hstep hr
    exact stepB_mono q q' e (runB_inv tr _ q (sessionStartB_inv c0 h0) hrun)
      hstep hr

theorem c8_witness :
    (stepA (speakState, 5) (.msg 6 (msgAudio [2])) =
      some ((handleMessageA speakState 6 (msgAudio [2])).1, 6)) ∧
    speakState.nextStartTime ≤
      (handleMessageA speakState 6 (msgAudio [2])).1.nextStartTime ∧
    (stepB (sessionStartB 0) (.mic [1]) =
      some ((onAudioProcessB (sessionStartB 0).1 [1]).1, 0)) ∧
    (sessionStartB 0).1.nextStartTime ≤
      (onAudioProcessB (sessionStartB 0).1 [1]).1.nextStartTime := by
  have hcond : (5 : ℚ) ≤ 6 ∧ msgDursNonneg (msgAudio [2]) = true := by decide
  have hstepA : stepA (speakState, 5) (.msg 6 (msgAudio [2])) =
      some ((handleMessageA speakState 6 (msgAudio [2])).1, 6) := by
    simp only [stepA, if_pos hcond]
  have hstepB : stepB (sessionStartB 0) (.mic [1]) =
      some ((onAudioProcessB (sessionStartB 0).1 [1]).1, 0) := rfl
  refine ⟨hstepA, ?_, hstepB, ?_⟩
  · exact c8_cursor_monotone.1 (speakState, 5)
      ((handleMessageA speakState 6 (msgAudio [2])).1, 6)
      (.msg 6 (msgAudio [2])) hstepA (by decide)
  · exact c8_cursor_monotone.2 0 [] (sessionStartB 0)
      ((onAudioProcessB (sessionStartB 0).1 [1]).1, 0) (.mic [1])
      (le_refl 0) rfl hstepB rfl
